import Mathlib

/-!
Verification development for the batch-auction competition sources:
`crates/autopilot/src/infra/solvers/dto/solve.rs` (competition request
construction and solver-response conversion) and
`crates/e2e/src/setup/colocation.rs` (test-harness driver configuration
generation).

The Rust code is shallowly embedded: `H160` addresses, `U256` values and
`u64` integers are modelled as `Nat` (with explicit range checks where the
code checks ranges), Rust `HashMap` / `HashSet` inputs are modelled as
association lists / lists of their iteration order (with `Nodup` key
hypotheses standing for the hash-map key invariant where a proof needs it),
fallible or panicking code returns `Option` / `Except`, and the wall clock
read by `Utc::now()` is an explicit `now` parameter.
-/

namespace Solve

/-- A token entry of the competition request
(struct `Token` of `solve.rs`): address, optional price, trusted flag. -/
structure Token where
  address : Nat
  price : Option Nat
  trusted : Bool
deriving DecidableEq, Repr

/-- Modelled from the spec: a domain order is a pending trade intent with a
unique id (its remaining attributes play no role in the embedded code, which
only converts orders wholesale). `domain::Order` is not part of the visible
sources. -/
structure DomainOrder where
  uid : String
deriving DecidableEq, Repr

/-- The dto order of the request payload. -/
structure Order where
  uid : String
deriving DecidableEq, Repr

/-- Modelled from the spec: `dto::order::from_domain` converts a domain order
to its wire form at the interface boundary; the conversion is not part of the
visible sources, so it is modelled as the identity on the order id. -/
def order_from_domain (o : DomainOrder) : Order :=
  ⟨o.uid⟩

/-- The auction snapshot (`domain::Auction`) restricted to the fields read by
`Request::new`: orders, the token price map (an association list in hash-map
iteration order, values are the `U256` price values), and the
surplus-capturing JIT order owner addresses. -/
structure Auction where
  orders : List DomainOrder
  prices : List (Nat × Nat)
  surplus_capturing_jit_order_owners : List Nat
deriving DecidableEq, Repr

/-- The competition request (struct `Request` of `solve.rs`).  The deadline
is a wall-clock instant modelled in nanoseconds. -/
structure Request where
  id : Int
  tokens : List Token
  orders : List Order
  deadline : Nat
  surplus_capturing_jit_order_owners : List Nat
deriving DecidableEq, Repr

/-- `Itertools::unique_by` with an explicit seen-key accumulator: an element
is kept iff its key has not been produced before. -/
def uniqueByAux (key : Token → Nat) : List Token → List Nat → List Token
  | [], _ => []
  | x :: xs, seen =>
    if seen.contains (key x) then
      uniqueByAux key xs seen
    else
      x :: uniqueByAux key xs (key x :: seen)

/-- `Itertools::unique_by`: deduplicate by key, keeping the first occurrence. -/
def uniqueBy (key : Token → Nat) (l : List Token) : List Token :=
  uniqueByAux key l []

/-- Largest `std::time::Duration` accepted by `chrono::Duration::from_std`,
in nanoseconds: `chrono`'s duration is capped at `i64::MAX` milliseconds. -/
def chronoMaxNanos : Nat := (2 ^ 63 - 1) * 1000000

/-- `chrono::Duration::from_std` on a std duration of `d` nanoseconds:
errors (`none`) when the duration exceeds the representable range. -/
def chronoFromStd (d : Nat) : Option Nat :=
  if d ≤ chronoMaxNanos then some d else none

/-- `Request::new` of `solve.rs`.  `now` is the instant returned by
`Utc::now()` at build time (nanoseconds); `time_limit` is the time budget in
nanoseconds.  The `.unwrap()` on `chrono::Duration::from_std` is modelled by
returning `none` (panic) when the conversion fails. -/
def Request.new (id : Int) (auction : Auction) (trusted_tokens : List Nat)
    (time_limit : Nat) (now : Nat) : Option Request :=
  (chronoFromStd time_limit).map (fun dur =>
    { id := id
      orders := auction.orders.map order_from_domain
      tokens := uniqueBy Token.address
        (auction.prices.map (fun ap =>
            { address := ap.1
              price := some ap.2
              trusted := trusted_tokens.contains ap.1 })
          ++ trusted_tokens.map (fun address =>
            { address := address
              price := none
              trusted := true }))
      deadline := now + dur
      surplus_capturing_jit_order_owners :=
        auction.surplus_capturing_jit_order_owners })

/-- Wire traded amounts (struct `TradedAmounts` of `solve.rs`). -/
structure TradedAmounts where
  sell_amount : Nat
  buy_amount : Nat
deriving DecidableEq, Repr

/-- A solver solution on the wire (struct `Solution` of `solve.rs`).  The
`orders` hash map is an association list keyed by order uid, the
`clearing_prices` hash map an association list keyed by token address. -/
structure Solution where
  solution_id : Nat
  score : Nat
  submission_address : Nat
  orders : List (String × TradedAmounts)
  clearing_prices : List (Nat × Nat)
  gas : Option Nat
deriving DecidableEq, Repr

/-- A solver response on the wire (struct `Response` of `solve.rs`). -/
structure Response where
  solutions : List Solution
deriving DecidableEq, Repr

/-- Modelled from the spec: the reasons a candidate solution is rejected are
an invalid score, an invalid clearing price, or a malformed payload
(`domain::competition::SolutionError` is not part of the visible sources). -/
inductive SolutionError where
  | invalidScore
  | invalidClearingPrice
  | malformed
deriving DecidableEq, Repr

/-- A validated score (`domain::competition::Score`). -/
structure Score where
  value : Nat
deriving DecidableEq, Repr

/-- Modelled from the spec: `domain::competition::Score::new` accepts exactly
the non-negative scores ("score ≥ 0"); the wire score is an unsigned 256-bit
value modelled as `Nat`, so the spec's condition is stated over `Int`. -/
def Score.new (s : Nat) : Except SolutionError Score :=
  if (0 : Int) ≤ (s : Int) then .ok ⟨s⟩ else .error .invalidScore

/-- A validated clearing price (`domain::auction::Price`). -/
structure Price where
  value : Nat
deriving DecidableEq, Repr

/-- Modelled from the spec: `domain::auction::Price::new` accepts exactly the
positive prices ("price > 0 when present"). -/
def Price.new (p : Nat) : Except SolutionError Price :=
  if 0 < p then .ok ⟨p⟩ else .error .invalidClearingPrice

/-- Domain traded amounts (`domain::competition::TradedAmounts`). -/
structure DomainTradedAmounts where
  sell : Nat
  buy : Nat
deriving DecidableEq, Repr

/-- Modelled from the spec: the domain solution carries the solution id,
submission address, validated score, per-order traded amounts and validated
clearing prices (`domain::competition::Solution` is not part of the visible
sources; its constructor `Solution::new` is infallible at the call site in
`solve.rs`). -/
structure DomainSolution where
  id : Nat
  solver : Nat
  score : Score
  orders : List (String × DomainTradedAmounts)
  prices : List (Nat × Price)
deriving DecidableEq, Repr

/-- Modelled from the spec: `domain::competition::Solution::new` is the plain
constructor (the call site wraps its result directly in `Ok`). -/
def DomainSolution.new (id : Nat) (solver : Nat) (score : Score)
    (orders : List (String × DomainTradedAmounts)) (prices : List (Nat × Price)) :
    DomainSolution :=
  ⟨id, solver, score, orders, prices⟩

/-- The `collect::<Result<_, _>>()` over the clearing-price map: validate
every price in iteration order, stopping at the first failure. -/
def collectPrices : List (Nat × Nat) → Except SolutionError (List (Nat × Price))
  | [] => .ok []
  | tp :: rest =>
    match Price.new tp.2 with
    | .error e => .error e
    | .ok price =>
      match collectPrices rest with
      | .error e => .error e
      | .ok ps => .ok ((tp.1, price) :: ps)

/-- `Solution::into_domain` of `solve.rs`: validate the score, convert the
traded amounts, validate every clearing price (first failure wins, score
before prices, as in the Rust argument evaluation order). -/
def Solution.into_domain (s : Solution) : Except SolutionError DomainSolution :=
  match Score.new s.score with
  | .error e => .error e
  | .ok score =>
    match collectPrices s.clearing_prices with
    | .error e => .error e
    | .ok prices =>
      .ok (DomainSolution.new s.solution_id s.submission_address score
        (s.orders.map (fun oa => (oa.1, ⟨oa.2.sell_amount, oa.2.buy_amount⟩)))
        prices)

/-- `Response::into_domain` of `solve.rs`: convert every contained solution
independently. -/
def Response.into_domain (r : Response) :
    List (Except SolutionError DomainSolution) :=
  r.solutions.map Solution.into_domain

/-! ### The JSON wire layer

`Response`, `Solution` and `TradedAmounts` derive `serde::Deserialize` with
`deny_unknown_fields` and camelCase field renaming.  The generated
deserializer for a JSON object walks its fields in document order, fails on a
field name outside the schema and on a duplicate field, and fails on a
missing required field once the object is exhausted (`Option` fields default
to `none`).  The JSON payload is modelled structurally; numbers carry a `Nat`
(the embedded parsers accept only non-negative integrals). -/

/-- A JSON value. -/
inductive Json where
  | null
  | bool (b : Bool)
  | num (n : Nat)
  | str (s : String)
  | arr (elems : List Json)
  | obj (fields : List (String × Json))

/-- Value of a hexadecimal digit. -/
def hexVal (c : Char) : Option Nat :=
  if '0' ≤ c ∧ c ≤ '9' then some (c.toNat - 48)
  else if 'a' ≤ c ∧ c ≤ 'f' then some (c.toNat - 87)
  else if 'A' ≤ c ∧ c ≤ 'F' then some (c.toNat - 55)
  else none

/-- Parse a non-empty run of hexadecimal digits. -/
def parseHexDigits (cs : List Char) : Option Nat :=
  match cs with
  | [] => none
  | _ => cs.foldlM (fun acc c => (hexVal c).map (fun v => acc * 16 + v)) 0

/-- Value of a decimal digit. -/
def decVal (c : Char) : Option Nat :=
  if '0' ≤ c ∧ c ≤ '9' then some (c.toNat - 48) else none

/-- Parse a non-empty run of decimal digits. -/
def parseDecDigits (cs : List Char) : Option Nat :=
  match cs with
  | [] => none
  | _ => cs.foldlM (fun acc c => (decVal c).map (fun v => acc * 10 + v)) 0

/-- Modelled from the spec: token prices, amounts and scores are unsigned
256-bit integers accepted on the wire as a number or a numeric string
(decimal, or hexadecimal with a `0x` prefix); the `HexOrDecimalU256` adapter
is not part of the visible sources. -/
def parseU256 (j : Json) : Except String Nat :=
  match j with
  | .num n => if n < 2 ^ 256 then .ok n else .error "number out of range"
  | .str s =>
    match s.data with
    | '0' :: 'x' :: rest =>
      match parseHexDigits rest with
      | some n => if n < 2 ^ 256 then .ok n else .error "number out of range"
      | none => .error "invalid hex digit"
    | cs =>
      match parseDecDigits cs with
      | some n => if n < 2 ^ 256 then .ok n else .error "number out of range"
      | none => .error "invalid decimal digit"
  | _ => .error "expected number or string"

/-- `u64` from a JSON number (field `gas`). -/
def parseU64 (j : Json) : Except String Nat :=
  match j with
  | .num n => if n < 2 ^ 64 then .ok n else .error "number out of range"
  | _ => .error "expected u64"

/-- `DisplayFromStr` for `u64` (field `solutionId`): a string of decimal
digits, optionally preceded by a plus sign, within the `u64` range. -/
def parseU64Str (j : Json) : Except String Nat :=
  match j with
  | .str s =>
    let cs := match s.data with
      | '+' :: rest => rest
      | cs => cs
    match parseDecDigits cs with
    | some n => if n < 2 ^ 64 then .ok n else .error "number out of range"
    | none => .error "invalid digit"
  | _ => .error "expected string"

/-- An `H160` address from a string: `0x` followed by exactly 40 hexadecimal
digits. -/
def parseH160String (s : String) : Except String Nat :=
  match s.data with
  | '0' :: 'x' :: rest =>
    if rest.length = 40 then
      match parseHexDigits rest with
      | some n => .ok n
      | none => .error "invalid hex digit"
    else .error "invalid address length"
  | _ => .error "expected 0x prefix"

/-- An `H160` address from a JSON value (field `submissionAddress`). -/
def parseH160 (j : Json) : Except String Nat :=
  match j with
  | .str s => parseH160String s
  | _ => .error "expected address string"

/-- Modelled from the spec: an order uid on the wire is `0x` followed by
exactly 112 hexadecimal digits (`boundary::OrderUid` is not part of the
visible sources); it is kept as the raw string. -/
def parseOrderUid (s : String) : Except String String :=
  match s.data with
  | '0' :: 'x' :: rest =>
    if rest.length = 112 ∧ (rest.foldlM (fun _ c => (hexVal c).map (fun _ => ())) ()).isSome then
      .ok s
    else .error "invalid order uid"
  | _ => .error "invalid order uid"

/-- Field loop of the derived `TradedAmounts` deserializer: `sellAmount` and
`buyAmount` both required, unknown and duplicate fields rejected. -/
def taLoop : List (String × Json) → Option Nat → Option Nat →
    Except String TradedAmounts
  | [], some s, some b => .ok ⟨s, b⟩
  | [], _, _ => .error "missing field"
  | (k, v) :: rest, s, b =>
    if k = "sellAmount" then
      match s with
      | some _ => .error "duplicate field sellAmount"
      | none =>
        match parseU256 v with
        | .ok n => taLoop rest (some n) b
        | .error e => .error e
    else if k = "buyAmount" then
      match b with
      | some _ => .error "duplicate field buyAmount"
      | none =>
        match parseU256 v with
        | .ok n => taLoop rest s (some n)
        | .error e => .error e
    else .error "unknown field"

/-- The derived deserializer of `TradedAmounts` (with `deny_unknown_fields`). -/
def TradedAmounts.deserialize (j : Json) : Except String TradedAmounts :=
  match j with
  | .obj fields => taLoop fields none none
  | _ => .error "expected object"

/-- Entry loop of the `orders` map: parse each key as an order uid and each
value as traded amounts, in document order, first failure wins. -/
def ordersLoop : List (String × Json) → Except String (List (String × TradedAmounts))
  | [] => .ok []
  | (k, v) :: rest =>
    match parseOrderUid k with
    | .error e => .error e
    | .ok uid =>
      match TradedAmounts.deserialize v with
      | .error e => .error e
      | .ok ta =>
        match ordersLoop rest with
        | .error e => .error e
        | .ok os => .ok ((uid, ta) :: os)

/-- The `orders` map: a JSON object whose keys are order uids and whose
values are traded amounts. -/
def parseOrders (j : Json) : Except String (List (String × TradedAmounts)) :=
  match j with
  | .obj fields => ordersLoop fields
  | _ => .error "expected object"

/-- Entry loop of the `clearingPrices` map: parse each key as an address and
each value as a price. -/
def pricesLoop : List (String × Json) → Except String (List (Nat × Nat))
  | [] => .ok []
  | (k, v) :: rest =>
    match parseH160String k with
    | .error e => .error e
    | .ok addr =>
      match parseU256 v with
      | .error e => .error e
      | .ok price =>
        match pricesLoop rest with
        | .error e => .error e
        | .ok ps => .ok ((addr, price) :: ps)

/-- The `clearingPrices` map: a JSON object whose keys are token addresses
and whose values are prices. -/
def parsePrices (j : Json) : Except String (List (Nat × Nat)) :=
  match j with
  | .obj fields => pricesLoop fields
  | _ => .error "expected object"

/-- Partially filled `Solution` during its field loop. -/
structure SolPartial where
  solution_id : Option Nat
  score : Option Nat
  submission_address : Option Nat
  orders : Option (List (String × TradedAmounts))
  clearing_prices : Option (List (Nat × Nat))
  gas : Option (Option Nat)
deriving Repr

/-- The empty partial solution. -/
def SolPartial.empty : SolPartial :=
  ⟨none, none, none, none, none, none⟩

/-- Assemble a `Solution` once the object is exhausted: every field except
`gas` is required, a missing `gas` is `none`. -/
def SolPartial.finish : SolPartial → Except String Solution
  | ⟨some sid, some sc, some sub, some os, some ps, g⟩ =>
    .ok ⟨sid, sc, sub, os, ps, g.getD none⟩
  | _ => .error "missing field"

/-- Field loop of the derived `Solution` deserializer: the six declared
fields, unknown and duplicate fields rejected. -/
def solLoop : List (String × Json) → SolPartial → Except String Solution
  | [], st => st.finish
  | (k, v) :: rest, st =>
    if k = "solutionId" then
      match st.solution_id with
      | some _ => .error "duplicate field solutionId"
      | none =>
        match parseU64Str v with
        | .ok n => solLoop rest { st with solution_id := some n }
        | .error e => .error e
    else if k = "score" then
      match st.score with
      | some _ => .error "duplicate field score"
      | none =>
        match parseU256 v with
        | .ok n => solLoop rest { st with score := some n }
        | .error e => .error e
    else if k = "submissionAddress" then
      match st.submission_address with
      | some _ => .error "duplicate field submissionAddress"
      | none =>
        match parseH160 v with
        | .ok n => solLoop rest { st with submission_address := some n }
        | .error e => .error e
    else if k = "orders" then
      match st.orders with
      | some _ => .error "duplicate field orders"
      | none =>
        match parseOrders v with
        | .ok os => solLoop rest { st with orders := some os }
        | .error e => .error e
    else if k = "clearingPrices" then
      match st.clearing_prices with
      | some _ => .error "duplicate field clearingPrices"
      | none =>
        match parsePrices v with
        | .ok ps => solLoop rest { st with clearing_prices := some ps }
        | .error e => .error e
    else if k = "gas" then
      match st.gas with
      | some _ => .error "duplicate field gas"
      | none =>
        match v with
        | .null => solLoop rest { st with gas := some none }
        | _ =>
          match parseU64 v with
          | .ok n => solLoop rest { st with gas := some (some n) }
          | .error e => .error e
    else .error "unknown field"

/-- The derived deserializer of `Solution` (with `deny_unknown_fields`). -/
def Solution.deserialize (j : Json) : Except String Solution :=
  match j with
  | .obj fields => solLoop fields SolPartial.empty
  | _ => .error "expected object"

/-- Element loop of the `solutions` array. -/
def solutionsLoop : List Json → Except String (List Solution)
  | [] => .ok []
  | e :: rest =>
    match Solution.deserialize e with
    | .error err => .error err
    | .ok s =>
      match solutionsLoop rest with
      | .error err => .error err
      | .ok ss => .ok (s :: ss)

/-- The `solutions` array: every element a `Solution`. -/
def parseSolutions (j : Json) : Except String (List Solution) :=
  match j with
  | .arr elems => solutionsLoop elems
  | _ => .error "expected array"

/-- Field loop of the derived `Response` deserializer: the single declared
field `solutions`, unknown and duplicate fields rejected. -/
def respLoop : List (String × Json) → Option (List Solution) →
    Except String Response
  | [], some sols => .ok ⟨sols⟩
  | [], none => .error "missing field solutions"
  | (k, v) :: rest, st =>
    if k = "solutions" then
      match st with
      | some _ => .error "duplicate field solutions"
      | none =>
        match parseSolutions v with
        | .ok sols => respLoop rest (some sols)
        | .error e => .error e
    else .error "unknown field"

/-- The derived deserializer of `Response` (with `deny_unknown_fields`). -/
def Response.deserialize (j : Json) : Except String Response :=
  match j with
  | .obj fields => respLoop fields none
  | _ => .error "expected object"

/-- A `TradedAmounts` object carries a field outside its schema. -/
def taHasUnknown (j : Json) : Bool :=
  match j with
  | .obj fields =>
    fields.any (fun kv => !(kv.1 == "sellAmount") && !(kv.1 == "buyAmount"))
  | _ => false

/-- Some traded-amounts value of an `orders` object carries an unknown field. -/
def ordersHasUnknown (j : Json) : Bool :=
  match j with
  | .obj fields => fields.any (fun kv => taHasUnknown kv.2)
  | _ => false

/-- A `Solution` object carries a field outside its schema, at its own level
or inside one of its `orders` values. -/
def solutionHasUnknown (j : Json) : Bool :=
  match j with
  | .obj fields => fields.any (fun kv =>
      if kv.1 = "solutionId" ∨ kv.1 = "score" ∨ kv.1 = "submissionAddress"
          ∨ kv.1 = "clearingPrices" ∨ kv.1 = "gas" then
        false
      else if kv.1 = "orders" then
        ordersHasUnknown kv.2
      else true)
  | _ => false

/-- Some element of a `solutions` array carries an unknown field. -/
def solutionsHasUnknown (j : Json) : Bool :=
  match j with
  | .arr elems => elems.any solutionHasUnknown
  | _ => false

/-- A `Response` payload carries a field outside the schema at some nesting
level: an unknown top-level field, or an unknown field inside a solution or
inside a solution's traded amounts. -/
def responseHasUnknown (j : Json) : Bool :=
  match j with
  | .obj fields => fields.any (fun kv =>
      if kv.1 = "solutions" then solutionsHasUnknown kv.2 else true)
  | _ => false

end Solve

namespace Colocation

/-- Number of occurrences of `pat` in `s` (positions at which `pat` is a
prefix of the corresponding suffix of `s`). -/
def occCount (pat : List Char) : List Char → Nat
  | [] => 0
  | c :: rest => (if pat.isPrefixOf (c :: rest) then 1 else 0) + occCount pat rest

/-- Occurrence count on strings. -/
def occStr (pat s : String) : Nat :=
  occCount pat.data s.data

/-- `t` occurs as a contiguous substring of `s`. -/
def containsStr (s t : String) : Prop :=
  ∃ u v : List Char, s.data = u ++ (t.data ++ v)

/-- The character of a nibble, lowercase (as in `hex::encode` and the
`Debug` rendering of `H160`). -/
def nibbleChar (n : Nat) : Char :=
  if n < 10 then Char.ofNat (48 + n) else Char.ofNat (87 + n)

/-- `hex::encode`: lowercase hexadecimal, two digits per byte. -/
def hexEncode (bytes : List Nat) : String :=
  ⟨bytes.flatMap (fun b => [nibbleChar (b / 16 % 16), nibbleChar (b % 16)])⟩

/-- Fixed-width lowercase hexadecimal rendering (most significant digit
first). -/
def hexFixed (width n : Nat) : List Char :=
  (List.range width).map (fun i => nibbleChar (n / 16 ^ (width - 1 - i) % 16))

/-- The `Debug` rendering of an `H160` address: `0x` plus 40 hex digits. -/
def h160Repr (a : Nat) : String :=
  ⟨'0' :: 'x' :: hexFixed 40 a⟩

/-- The `Debug` rendering of an `H256` value: `0x` plus 64 hex digits. -/
def h256Repr (a : Nat) : String :=
  ⟨'0' :: 'x' :: hexFixed 64 a⟩

/-- Decimal digit character. -/
def digitChar (n : Nat) : Char :=
  Char.ofNat (48 + n)

/-- Decimal rendering helper (accumulator collects low digits). -/
def natDecAux : Nat → List Char → List Char
  | 0, acc => acc
  | n + 1, acc => natDecAux ((n + 1) / 10) (digitChar ((n + 1) % 10) :: acc)
  decreasing_by exact Nat.div_lt_self (Nat.succ_pos n) (by decide)

/-- The `Display` rendering of an unsigned integer. -/
def natDec (n : Nat) : String :=
  if n = 0 then "0" else ⟨natDecAux n []⟩

/-- The `Debug` rendering of a Rust `String` (quotes around the text; none of
the strings rendered this way in the embedded code needs escaping). -/
def debugStr (s : String) : String :=
  "\"" ++ s ++ "\""

/-- `Vec::join` on strings. -/
def joinSep (sep : String) : List String → String
  | [] => ""
  | [s] => s
  | s :: rest => s ++ sep ++ joinSep sep rest

/-- A solver engine handle (struct `SolverEngine` of `colocation.rs`): name,
endpoint url (its `Display` rendering) and account private key bytes. -/
structure SolverEngine where
  name : String
  endpoint : String
  account : List Nat
deriving DecidableEq, Repr

/-- `ethcontract::common::DeploymentInformation`. -/
inductive DeploymentInformation where
  | blockNumber (n : Nat)
  | transactionHash (h : Nat)
deriving DecidableEq, Repr

/-- A deployed contract handle: address and optional deployment
information. -/
structure Contract where
  address : Nat
  deploymentInformation : Option DeploymentInformation
deriving DecidableEq, Repr

/-- The contract set read by `start_driver` (struct `Contracts` of the e2e
setup): settlement and weth addresses, the uniswap router, the default pool
code digest, and the CoW AMM helper contracts. -/
structure Contracts where
  gpSettlement : Nat
  weth : Nat
  uniswapV2Router : Nat
  defaultPoolCode : Nat
  cowAmmHelper : List Contract
deriving DecidableEq, Repr

/-- `LiquidityProvider` of `colocation.rs`. -/
inductive LiquidityProvider where
  | uniswapV2
  | zeroEx (apiPort : Nat)
deriving DecidableEq, Repr

/-- Literal chunk of the uniswap liquidity block. -/
def uniLit1 : String := "\n[[liquidity.uniswap-v2]]\nrouter = \""

/-- Literal chunk of the uniswap liquidity block. -/
def uniLit2 : String := "\"\npool-code = \""

/-- Literal chunk of the uniswap liquidity block. -/
def uniLit3 : String := "\"\nmissing-pool-cache-time = \"1h\"\n"

/-- Literal chunk of the zeroex liquidity block. -/
def zeroLit1 : String := "\n[liquidity.zeroex]\nbase-url = "

/-- Literal chunk of the zeroex liquidity block. -/
def zeroLit2 : String := "\napi-key = "

/-- Literal chunk of the zeroex liquidity block. -/
def zeroLit3 : String := "\nhttp-timeout = \"10s\"\n"

/-- `LiquidityProvider::to_string`. -/
def LiquidityProvider.toConfig (l : LiquidityProvider) (contracts : Contracts) :
    String :=
  match l with
  | .uniswapV2 =>
    uniLit1 ++ h160Repr contracts.uniswapV2Router
      ++ uniLit2 ++ h256Repr contracts.defaultPoolCode
      ++ uniLit3
  | .zeroEx apiPort =>
    zeroLit1 ++ debugStr ("http://0.0.0.0:" ++ natDec apiPort)
      ++ zeroLit2 ++ debugStr "no-api-key"
      ++ zeroLit3

/-- Literal chunk of a `[[solver]]` block. -/
def solverLit1 : String := "\n[[solver]]\nname = \""

/-- Literal chunk of a `[[solver]]` block. -/
def solverLit2 : String := "\"\nendpoint = \""

/-- Literal chunk of a `[[solver]]` block. -/
def solverLit3 : String := "\"\nrelative-slippage = \"0.1\"\naccount = \""

/-- Literal chunk of a `[[solver]]` block. -/
def solverLit4 : String := "\"\n\n"

/-- The `[[solver]]` block generated for one engine inside `start_driver`. -/
def solverBlock (e : SolverEngine) : String :=
  solverLit1 ++ e.name
    ++ solverLit2 ++ e.endpoint
    ++ solverLit3 ++ hexEncode e.account
    ++ solverLit4

/-- The solver section of the driver configuration: one block per engine,
joined with a newline. -/
def solversSection (engines : List SolverEngine) : String :=
  joinSep "\n" (engines.map solverBlock)

/-- Literal chunk of a `[[contracts.cow-amms]]` block. -/
def cowLit1 : String := "\n[[contracts.cow-amms]]\nindex-start = "

/-- Literal chunk of a `[[contracts.cow-amms]]` block. -/
def cowLit2 : String := "\nhelper = \""

/-- Literal chunk of a `[[contracts.cow-amms]]` block. -/
def cowLit3 : String := "\"\nfactory = \""

/-- Literal chunk of a `[[contracts.cow-amms]]` block. -/
def cowLit4 : String := "\"\n"

/-- The `[[contracts.cow-amms]]` block for one CoW AMM helper contract.
`start_driver` panics (`none`) when the contract's deployment information is
not a block number; the `block - 1` of the index start is `u64` subtraction,
which underflows when the deployment block is 0 (panic, `none`, under the
checked arithmetic of the test build). -/
def cowAmmBlock (c : Contract) : Option String :=
  match c.deploymentInformation with
  | some (.blockNumber b) =>
    if b = 0 then none
    else some (cowLit1 ++ natDec (b - 1)
      ++ cowLit2 ++ h160Repr c.address
      ++ cowLit3 ++ h160Repr c.address
      ++ cowLit4)
  | _ => none

/-- The CoW AMM blocks of the driver configuration, in contract order; the
first panic (`none`) wins. -/
def cowAmmBlocks : List Contract → Option (List String)
  | [] => some []
  | c :: rest =>
    match cowAmmBlock c with
    | none => none
    | some s =>
      match cowAmmBlocks rest with
      | none => none
      | some ss => some (s :: ss)

/-- The CoW AMM section of the driver configuration. -/
def cowAmmsSection (cs : List Contract) : Option String :=
  (cowAmmBlocks cs).map (joinSep "\n")

/-- The submission tail of the driver configuration (fixed text). -/
def submissionSection : String :=
  "\n\n[submission]\ngas-price-cap = \"1000000000000\"\n\n[[submission.mempool]]\nmempool = \"public\"\n"

/-- Literal chunk of the driver configuration. -/
def cfgLit1 : String := "\n[contracts]\ngp-v2-settlement = \""

/-- Literal chunk of the driver configuration. -/
def cfgLit2 : String := "\"\nweth = \""

/-- Literal chunk of the driver configuration. -/
def cfgLit3 : String := "\"\n"

/-- Literal chunk of the driver configuration. -/
def cfgLit4 : String := "\n\n"

/-- Literal chunk of the driver configuration. -/
def cfgLit5 : String := "\n\n[liquidity]\nbase-tokens = []\n\n"

/-- The configuration text generated by `start_driver` of `colocation.rs`
(`none` models a panic while building it). -/
def startDriverConfig (contracts : Contracts) (engines : List SolverEngine)
    (liquidity : LiquidityProvider) : Option String :=
  (cowAmmsSection contracts.cowAmmHelper).map (fun cowAmms =>
    cfgLit1 ++ h160Repr contracts.gpSettlement
      ++ cfgLit2 ++ h160Repr contracts.weth
      ++ cfgLit3 ++ cowAmms
      ++ cfgLit4 ++ solversSection engines
      ++ cfgLit5 ++ liquidity.toConfig contracts
      ++ submissionSection)

/-- The `[[solver]]` block header. -/
def solverHeader : String := "[[solver]]"

/-- The `[[submission.mempool]]` block header. -/
def mempoolHeader : String := "[[submission.mempool]]"

end Colocation

namespace Solve

theorem uniqueByAux_subset {key : Token → Nat} :
    ∀ (l : List Token) (seen : List Nat) (x : Token),
      x ∈ uniqueByAux key l seen → x ∈ l := by
  intro l
  induction l with
  | nil => intro seen x h; simp [uniqueByAux] at h
  | cons y ys ih =>
    intro seen x h
    cases hc : seen.contains (key y) with
    | true =>
      simp only [uniqueByAux, hc, if_pos] at h
      exact List.mem_cons_of_mem y (ih seen x h)
    | false =>
      simp only [uniqueByAux, hc, Bool.false_eq_true, if_false, List.mem_cons] at h
      rcases h with h | h
      · exact h ▸ List.mem_cons_self y ys
      · exact List.mem_cons_of_mem y (ih _ x h)

theorem uniqueByAux_keys {key : Token → Nat} :
    ∀ (l : List Token) (seen : List Nat),
      ((uniqueByAux key l seen).map key).Nodup
      ∧ ∀ b ∈ (uniqueByAux key l seen).map key, seen.contains b = false := by
  intro l
  induction l with
  | nil => intro seen; simp [uniqueByAux]
  | cons y ys ih =>
    intro seen
    cases hc : seen.contains (key y) with
    | true => simpa only [uniqueByAux, hc, if_pos] using ih seen
    | false =>
      simp only [uniqueByAux, hc, Bool.false_eq_true, if_false, List.map_cons]
      obtain ⟨ihnodup, ihseen⟩ := ih (key y :: seen)
      refine ⟨List.nodup_cons.mpr ⟨fun hmem => ?_, ihnodup⟩, ?_⟩
      · have := ihseen (key y) hmem
        simp [List.contains_cons] at this
      · intro b hb
        rcases List.mem_cons.mp hb with hb | hb
        · exact hb ▸ hc
        · have := ihseen b hb
          simp only [List.contains_cons, Bool.or_eq_false_iff] at this
          exact this.2

theorem uniqueByAux_mem_of_find {key : Token → Nat} :
    ∀ (l : List Token) (seen : List Nat) (k : Nat) (x : Token),
      l.find? (fun t => key t == k) = some x → seen.contains k = false →
      x ∈ uniqueByAux key l seen := by
  intro l
  induction l with
  | nil => intro seen k x h _; simp at h
  | cons y ys ih =>
    intro seen k x h hk
    by_cases hp : key y = k
    · rw [List.find?_cons_of_pos ys (by simp [hp])] at h
      cases h
      have : seen.contains (key y) = false := hp ▸ hk
      simp only [uniqueByAux, this, Bool.false_eq_true, if_false]
      exact List.mem_cons_self _ _
    · rw [List.find?_cons_of_neg ys (by simp [hp])] at h
      cases hc : seen.contains (key y) with
      | true =>
        simp only [uniqueByAux, hc, if_pos]
        exact ih seen k x h hk
      | false =>
        simp only [uniqueByAux, hc, Bool.false_eq_true, if_false]
        refine List.mem_cons_of_mem y (ih _ k x h ?_)
        rw [List.contains_cons]
        simp only [Bool.or_eq_false_iff, beq_eq_false_iff_ne]
        exact ⟨fun hh => hp hh.symm, hk⟩

theorem find_token_priced (trusted : List Nat) :
    ∀ (prices : List (Nat × Nat)) (a p : Nat),
      (prices.map Prod.fst).Nodup → (a, p) ∈ prices →
      (prices.map (fun ap =>
          ({ address := ap.1, price := some ap.2,
             trusted := trusted.contains ap.1 } : Token))).find?
          (fun t => t.address == a)
        = some { address := a, price := some p, trusted := trusted.contains a } := by
  intro prices
  induction prices with
  | nil => intro a p _ h; simp at h
  | cons bq rest ih =>
    intro a p hnodup hmem
    rw [List.map_cons, List.nodup_cons] at hnodup
    obtain ⟨hhead, htail⟩ := hnodup
    rcases List.mem_cons.mp hmem with heq | hmem
    · cases heq
      simp only [List.map_cons]
      exact List.find?_cons_of_pos _ (by simp)
    · have hne : bq.1 ≠ a := by
        intro h
        exact hhead (h ▸ List.mem_map_of_mem Prod.fst hmem)
      simp only [List.map_cons]
      rw [List.find?_cons_of_neg _ (by simp [hne])]
      exact ih a p htail hmem

theorem find_token_unpriced (prices : List (Nat × Nat)) (trusted : List Nat)
    (a : Nat) (h : ∀ p, (a, p) ∉ prices) :
    (prices.map (fun ap =>
        ({ address := ap.1, price := some ap.2,
           trusted := trusted.contains ap.1 } : Token))).find?
        (fun t => t.address == a) = none := by
  rw [List.find?_eq_none]
  intro t ht
  obtain ⟨bq, hbq, rfl⟩ := List.mem_map.mp ht
  simp only [beq_iff_eq]
  intro hcontra
  exact h bq.2 (by cases bq; cases hcontra; simpa using hbq)

theorem find_token_trusted :
    ∀ (trusted : List Nat) (a : Nat), a ∈ trusted →
      (trusted.map (fun address =>
          ({ address := address, price := none, trusted := true } : Token))).find?
          (fun t => t.address == a)
        = some { address := a, price := none, trusted := true } := by
  intro trusted
  induction trusted with
  | nil => intro a h; simp at h
  | cons b rest ih =>
    intro a h
    by_cases hba : b = a
    · cases hba
      simp only [List.map_cons]
      exact List.find?_cons_of_pos _ (by simp)
    · simp only [List.map_cons]
      rw [List.find?_cons_of_neg _ (by simp [hba])]
      exact ih a (by rcases List.mem_cons.mp h with h | h; exact absurd h.symm hba; exact h)

theorem filter_addr_of_nodup :
    ∀ (l : List Token) (x : Token), (l.map Token.address).Nodup → x ∈ l →
      l.filter (fun t => t.address == x.address) = [x] := by
  intro l
  induction l with
  | nil => intro x _ h; simp at h
  | cons y ys ih =>
    intro x hnodup hmem
    rw [List.map_cons, List.nodup_cons] at hnodup
    obtain ⟨hhead, htail⟩ := hnodup
    rcases List.mem_cons.mp hmem with heq | hmem
    · cases heq
      rw [List.filter_cons_of_pos (by simp)]
      congr 1
      rw [List.filter_eq_nil_iff]
      intro t ht
      simp only [beq_iff_eq]
      intro hcontra
      exact hhead (hcontra ▸ List.mem_map_of_mem Token.address ht)
    · have hne : y.address ≠ x.address := by
        intro h
        exact hhead (h ▸ List.mem_map_of_mem Token.address hmem)
      rw [List.filter_cons_of_neg (by simp [hne])]
      exact ih x htail hmem

theorem request_new_some {id : Int} {auction : Auction} {trusted : List Nat}
    {tl now : Nat} {r : Request}
    (hr : Request.new id auction trusted tl now = some r) :
    tl ≤ chronoMaxNanos
    ∧ r = { id := id
            orders := auction.orders.map order_from_domain
            tokens := uniqueBy Token.address
              (auction.prices.map (fun ap =>
                  { address := ap.1, price := some ap.2,
                    trusted := trusted.contains ap.1 })
                ++ trusted.map (fun address =>
                  { address := address, price := none, trusted := true }))
            deadline := now + tl
            surplus_capturing_jit_order_owners :=
              auction.surplus_capturing_jit_order_owners } := by
  simp only [Request.new, chronoFromStd] at hr
  split at hr
  · simp only [Option.map_some'] at hr
    exact ⟨by assumption, (Option.some.inj hr).symm⟩
  · simp at hr

/-- Claim C1: the token list built by `Request::new` contains, for each
(address, price) pair of the auction's price map, an entry with that price
and trusted flag equal to membership in the trusted-token set; for each
trusted address not in the price map, an entry with no price and
trusted = true; it has no duplicate addresses (dedup keeps the first
occurrence in construction order), and an address both priced and trusted
occurs exactly once, with its price preserved and trusted = true. -/
theorem c1_token_list (id : Int) (auction : Auction) (trusted : List Nat)
    (tl now : Nat) (r : Request)
    (hkeys : (auction.prices.map Prod.fst).Nodup)
    (hr : Request.new id auction trusted tl now = some r) :
    (∀ a p, (a, p) ∈ auction.prices →
      ({ address := a, price := some p, trusted := trusted.contains a } : Token)
        ∈ r.tokens)
    ∧ (∀ a, a ∈ trusted → (∀ p, (a, p) ∉ auction.prices) →
      ({ address := a, price := none, trusted := true } : Token) ∈ r.tokens)
    ∧ (r.tokens.map Token.address).Nodup
    ∧ (∀ a p, (a, p) ∈ auction.prices → a ∈ trusted →
      r.tokens.filter (fun t => t.address == a)
        = [{ address := a, price := some p, trusted := true }]) := by
  obtain ⟨-, rfl⟩ := request_new_some hr
  simp only [uniqueBy]
  refine ⟨?_, ?_, ?_, ?_⟩
  · intro a p hmem
    refine uniqueByAux_mem_of_find _ [] a _ ?_ rfl
    rw [List.find?_append, find_token_priced trusted auction.prices a p hkeys hmem]
    rfl
  · intro a ha hnp
    refine uniqueByAux_mem_of_find _ [] a _ ?_ rfl
    rw [List.find?_append, find_token_unpriced auction.prices trusted a hnp,
      find_token_trusted trusted a ha]
    rfl
  · exact (uniqueByAux_keys _ []).1
  · intro a p hmem ha
    have hcontains : trusted.contains a = true := List.elem_iff.mpr ha
    refine filter_addr_of_nodup _
      ({ address := a, price := some p, trusted := true }) (uniqueByAux_keys _ []).1 ?_
    refine uniqueByAux_mem_of_find _ [] a _ ?_ rfl
    rw [List.find?_append, find_token_priced trusted auction.prices a p hkeys hmem,
      hcontains]
    rfl

/-- Witness for C1 at a concrete auction: token address 2 is both priced
(price 20) and trusted, and occurs exactly once with its price preserved
and trusted = true. -/
theorem c1_token_list_witness :
    ((Request.new 0 ⟨[], [(1, 10), (2, 20)], []⟩ [2, 3] 5 100).getD
        ⟨0, [], [], 0, []⟩).tokens.filter (fun t => t.address == 2)
      = [{ address := 2, price := some 20, trusted := true }] :=
  (c1_token_list 0 ⟨[], [(1, 10), (2, 20)], []⟩ [2, 3] 5 100 _
    (by decide) rfl).2.2.2 2 20 (by decide) (by decide)

/-- Claim C2: `Response::into_domain` returns one result per solution, in
the order of the response's solutions list, and the result at each position
depends only on the solution at that position, so a validation failure of
one solution does not change the conversion result of any other. -/
theorem c2_per_solution_conversion (r : Response) :
    (Response.into_domain r).length = r.solutions.length
    ∧ (∀ i : Nat, (Response.into_domain r)[i]?
        = (r.solutions[i]?).map Solution.into_domain)
    ∧ (∀ (r₁ r₂ : Response) (i : Nat), r₁.solutions[i]? = r₂.solutions[i]? →
        (Response.into_domain r₁)[i]? = (Response.into_domain r₂)[i]?) := by
  refine ⟨List.length_map _ _, fun i => List.getElem?_map _ _ _, ?_⟩
  intro r₁ r₂ i h
  simp only [Response.into_domain, List.getElem?_map, h]

/-- Witness for C2: two responses that agree on their first solution but
differ in their second (the second of the first response has an invalid
clearing price) convert identically at position 0. -/
theorem c2_per_solution_conversion_witness :
    (Response.into_domain ⟨[⟨1, 5, 7, [("0xab", ⟨2, 3⟩)], [(1, 2)], none⟩,
        ⟨2, 5, 7, [], [(1, 0)], none⟩]⟩)[0]?
      = (Response.into_domain ⟨[⟨1, 5, 7, [("0xab", ⟨2, 3⟩)], [(1, 2)], none⟩,
        ⟨3, 6, 8, [], [(4, 5)], some 9⟩]⟩)[0]? :=
  (c2_per_solution_conversion ⟨[⟨1, 5, 7, [("0xab", ⟨2, 3⟩)], [(1, 2)], none⟩,
      ⟨2, 5, 7, [], [(1, 0)], none⟩]⟩).2.2
    ⟨[⟨1, 5, 7, [("0xab", ⟨2, 3⟩)], [(1, 2)], none⟩, ⟨2, 5, 7, [], [(1, 0)], none⟩]⟩
    ⟨[⟨1, 5, 7, [("0xab", ⟨2, 3⟩)], [(1, 2)], none⟩, ⟨3, 6, 8, [], [(4, 5)], some 9⟩]⟩
    0 rfl

/-- Claim C3: the deadline of the built request is the build-time instant
plus the time budget, and rebuilding from identical inputs at the same
build time yields the same request. -/
theorem c3_deadline (id : Int) (auction : Auction) (trusted : List Nat)
    (tl now : Nat) (r : Request)
    (hr : Request.new id auction trusted tl now = some r) :
    r.deadline = now + tl
    ∧ ∀ r2, Request.new id auction trusted tl now = some r2 → r2 = r := by
  obtain ⟨-, rfl⟩ := request_new_some hr
  exact ⟨rfl, fun r2 h2 => (request_new_some h2).2⟩

/-- Witness for C3 at a concrete build: time budget 5, build time 100,
deadline 105. -/
theorem c3_deadline_witness :
    ((Request.new 0 ⟨[], [], []⟩ [] 5 100).getD ⟨0, [], [], 0, []⟩).deadline
      = 100 + 5 :=
  (c3_deadline 0 ⟨[], [], []⟩ [] 5 100 _ rfl).1

/-- Counterexample to Claim C4 as stated: two invocations of `Request::new`
on identical inputs (id, auction, trusted tokens, time budget) but at
different wall-clock instants produce different requests (the deadline
differs), and the build instant is not among the claim's inputs. -/
theorem c4_counterexample :
    Request.new 0 ⟨[], [], []⟩ [] 0 0 ≠ Request.new 0 ⟨[], [], []⟩ [] 0 1 := by
  decide

/-- Claim C4 (amended): for identical inputs and the same build-time
instant, the produced requests are identical, including the token list with
its order and every other field. -/
theorem c4_deterministic (id : Int) (auction : Auction) (trusted : List Nat)
    (tl now : Nat) (r₁ r₂ : Request)
    (h₁ : Request.new id auction trusted tl now = some r₁)
    (h₂ : Request.new id auction trusted tl now = some r₂) :
    r₁ = r₂ ∧ r₁.tokens = r₂.tokens := by
  obtain ⟨-, rfl⟩ := request_new_some h₁
  obtain ⟨-, rfl⟩ := request_new_some h₂
  exact ⟨rfl, rfl⟩

/-- Witness for C4 (amended) at a concrete input. -/
theorem c4_deterministic_witness :
    ((Request.new 0 ⟨[], [(1, 10)], []⟩ [1] 5 100).getD ⟨0, [], [], 0, []⟩)
      = ((Request.new 0 ⟨[], [(1, 10)], []⟩ [1] 5 100).getD ⟨0, [], [], 0, []⟩) :=
  (c4_deterministic 0 ⟨[], [(1, 10)], []⟩ [1] 5 100 _ _ rfl rfl).1

theorem isOk_error {ε α : Type} (e : ε) :
    (Except.error e : Except ε α).isOk = false :=
  rfl

theorem collectPrices_ok (l : List (Nat × Nat)) :
    (collectPrices l).isOk = true ↔ ∀ tp ∈ l, 0 < tp.2 := by
  induction l with
  | nil =>
    exact ⟨fun _ tp h => absurd h (List.not_mem_nil tp), fun _ => rfl⟩
  | cons tp rest ih =>
    by_cases hp : 0 < tp.2
    · constructor
      · intro h
        have hro : (collectPrices rest).isOk = true := by
          revert h
          simp only [collectPrices, Price.new, if_pos hp]
          cases collectPrices rest with
          | ok v => intro _; rfl
          | error e => intro h; exact h
        intro tq hq
        rcases List.mem_cons.mp hq with heq | hq2
        · exact heq ▸ hp
        · exact ih.mp hro tq hq2
      · intro h
        have hrest := ih.mpr (fun tq hq => h tq (List.mem_cons_of_mem tp hq))
        simp only [collectPrices, Price.new, if_pos hp]
        cases hr2 : collectPrices rest with
        | ok v => rfl
        | error e => rw [hr2, isOk_error] at hrest; exact absurd hrest (by simp)
    · constructor
      · intro h
        simp only [collectPrices, Price.new, if_neg hp, isOk_error] at h
        exact absurd h (by simp)
      · intro h
        exact absurd (h tp (List.mem_cons_self tp rest)) hp

/-- Counterexample to Claim C5 as stated: a solution with a traded order and
an empty clearing-price set (so every token referenced by the traded order
is missing a clearing price) converts successfully; `Solution::into_domain`
performs no coverage check. -/
theorem c5_counterexample :
    (Solution.into_domain ⟨1, 10, 7, [("0xuid", ⟨2, 3⟩)], [], none⟩).isOk = true
    ∧ (⟨1, 10, 7, [("0xuid", ⟨2, 3⟩)], [], none⟩ : Solution).orders ≠ []
    ∧ (⟨1, 10, 7, [("0xuid", ⟨2, 3⟩)], [], none⟩ : Solution).clearing_prices
      = [] := by
  refine ⟨rfl, by simp, rfl⟩

/-- Claim C5 (amended): conversion of a solver solution succeeds exactly
when the score is valid and every clearing price is well-formed (positive);
no check that the clearing prices cover the tokens referenced by traded
orders is performed (the wire solution carries no token references for its
orders), and the traded-order map has no influence on success. -/
theorem c5_no_coverage_check (s : Solution) :
    ((Solution.into_domain s).isOk = true ↔
      ((Score.new s.score).isOk = true ∧ ∀ tp ∈ s.clearing_prices, 0 < tp.2))
    ∧ ∀ os, (Solution.into_domain { s with orders := os }).isOk
        = (Solution.into_domain s).isOk := by
  have hnn : (0 : Int) ≤ (s.score : Int) := by exact_mod_cast Nat.zero_le s.score
  have hscore : Score.new s.score = .ok ⟨s.score⟩ := by
    unfold Score.new
    rw [if_pos hnn]
  have hiso : (Solution.into_domain s).isOk
      = (collectPrices s.clearing_prices).isOk := by
    unfold Solution.into_domain
    rw [hscore]
    cases collectPrices s.clearing_prices with
    | ok v => rfl
    | error e => rfl
  constructor
  · rw [hiso]
    constructor
    · intro h
      exact ⟨by rw [hscore]; rfl, (collectPrices_ok _).mp h⟩
    · intro h
      exact (collectPrices_ok _).mpr h.2
  · intro os
    have key : ∀ (s₁ s₂ : Solution), s₁.score = s₂.score →
        s₁.clearing_prices = s₂.clearing_prices →
        (Solution.into_domain s₁).isOk = (Solution.into_domain s₂).isOk := by
      intro s₁ s₂ h₁ h₂
      unfold Solution.into_domain
      rw [h₁, h₂]
      cases Score.new s₂.score with
      | error e => rfl
      | ok sc =>
        cases collectPrices s₂.clearing_prices with
        | error e => rfl
        | ok ps => rfl
    exact key _ _ rfl rfl

/-- Witness for C5 (amended): a solution with a non-empty traded-order map
and an empty clearing-price set converts successfully. -/
theorem c5_no_coverage_check_witness :
    (Solution.into_domain ⟨2, 11, 8, [("0xother", ⟨4, 5⟩)], [], some 3⟩).isOk
      = true :=
  (c5_no_coverage_check ⟨2, 11, 8, [("0xother", ⟨4, 5⟩)], [], some 3⟩).1.mpr
    ⟨rfl, by simp⟩

/-- Claim C8: `Request::new` panics when the time budget exceeds the range
representable by a `chrono::Duration`, so a request is built (without
panicking) only when the budget is within that range. -/
theorem c8_time_budget (id : Int) (auction : Auction) (trusted : List Nat)
    (tl now : Nat) :
    (chronoMaxNanos < tl → Request.new id auction trusted tl now = none)
    ∧ (∀ r, Request.new id auction trusted tl now = some r →
        tl ≤ chronoMaxNanos) := by
  constructor
  · intro h
    simp [Request.new, chronoFromStd, Nat.not_le.mpr h]
  · intro r hr
    exact (request_new_some hr).1

/-- Witness for C8: a budget one nanosecond past the `chrono` range makes
the build panic. -/
theorem c8_time_budget_witness :
    Request.new 0 ⟨[], [], []⟩ [] (chronoMaxNanos + 1) 0 = none :=
  (c8_time_budget 0 ⟨[], [], []⟩ [] (chronoMaxNanos + 1) 0).1
    (Nat.lt_succ_self _)

/-- Claim C9: the optional gas field of a wire solution is discarded by
`Solution::into_domain`; two solutions differing only in gas convert to the
same result. -/
theorem c9_gas_ignored (s : Solution) (g₁ g₂ : Option Nat) :
    Solution.into_domain { s with gas := g₁ }
      = Solution.into_domain { s with gas := g₂ } :=
  rfl

theorem taLoop_step {k : String} {v : Json} {rest : List (String × Json)}
    {s b : Option Nat} {ta : TradedAmounts}
    (h : taLoop ((k, v) :: rest) s b = .ok ta) :
    (k = "sellAmount" ∨ k = "buyAmount")
    ∧ ∃ s2 b2, taLoop rest s2 b2 = .ok ta := by
  by_cases h1 : k = "sellAmount"
  · refine ⟨Or.inl h1, ?_⟩
    simp only [taLoop, if_pos h1] at h
    cases s with
    | some _ => exact absurd h (by simp)
    | none =>
      cases hp : parseU256 v with
      | ok n => rw [hp] at h; exact ⟨some n, b, h⟩
      | error e => rw [hp] at h; exact absurd h (by simp)
  · by_cases h2 : k = "buyAmount"
    · refine ⟨Or.inr h2, ?_⟩
      simp only [taLoop, if_neg h1, if_pos h2] at h
      cases b with
      | some _ => exact absurd h (by simp)
      | none =>
        cases hp : parseU256 v with
        | ok n => rw [hp] at h; exact ⟨s, some n, h⟩
        | error e => rw [hp] at h; exact absurd h (by simp)
    · simp only [taLoop, if_neg h1, if_neg h2] at h
      exact absurd h (by simp)

theorem taLoop_keys :
    ∀ (fields : List (String × Json)) (s b : Option Nat) (ta : TradedAmounts),
      taLoop fields s b = .ok ta →
      ∀ kv ∈ fields, kv.1 = "sellAmount" ∨ kv.1 = "buyAmount" := by
  intro fields
  induction fields with
  | nil => intro s b ta _ kv hkv; exact absurd hkv (List.not_mem_nil kv)
  | cons kv0 rest ih =>
    intro s b ta h kv hkv
    obtain ⟨k, v⟩ := kv0
    obtain ⟨hk, s2, b2, hrest⟩ := taLoop_step h
    rcases List.mem_cons.mp hkv with heq | hkv2
    · exact heq ▸ hk
    · exact ih s2 b2 ta hrest kv hkv2

theorem ta_deserialize_clean {j : Json} {ta : TradedAmounts}
    (h : TradedAmounts.deserialize j = .ok ta) : taHasUnknown j = false := by
  cases j with
  | obj fields =>
    simp only [TradedAmounts.deserialize] at h
    simp only [taHasUnknown]
    rw [List.any_eq_false]
    intro kv hkv
    rcases taLoop_keys fields none none ta h kv hkv with h1 | h1 <;> simp [h1]
  | null => rfl
  | bool b => rfl
  | num n => rfl
  | str s => rfl
  | arr es => rfl

theorem ordersLoop_clean :
    ∀ (fields : List (String × Json)) (os : List (String × TradedAmounts)),
      ordersLoop fields = .ok os →
      ∀ kv ∈ fields, taHasUnknown kv.2 = false := by
  intro fields
  induction fields with
  | nil => intro os _ kv hkv; exact absurd hkv (List.not_mem_nil kv)
  | cons kv0 rest ih =>
    intro os h kv hkv
    obtain ⟨k, v⟩ := kv0
    simp only [ordersLoop] at h
    cases hu : parseOrderUid k with
    | error e => rw [hu] at h; exact absurd h (by simp)
    | ok uid =>
      rw [hu] at h
      cases hta : TradedAmounts.deserialize v with
      | error e => rw [hta] at h; exact absurd h (by simp)
      | ok ta =>
        rw [hta] at h
        cases ho : ordersLoop rest with
        | error e => rw [ho] at h; exact absurd h (by simp)
        | ok os2 =>
          rcases List.mem_cons.mp hkv with heq | hkv2
          · exact heq ▸ ta_deserialize_clean hta
          · exact ih os2 ho kv hkv2

theorem parseOrders_clean {j : Json} {os : List (String × TradedAmounts)}
    (h : parseOrders j = .ok os) : ordersHasUnknown j = false := by
  cases j with
  | obj fields =>
    simp only [parseOrders] at h
    simp only [ordersHasUnknown]
    rw [List.any_eq_false]
    intro kv hkv
    simp [ordersLoop_clean fields os h kv hkv]
  | null => rfl
  | bool b => rfl
  | num n => rfl
  | str s => rfl
  | arr es => rfl

theorem solLoop_step {k : String} {v : Json} {rest : List (String × Json)}
    {st : SolPartial} {sol : Solution}
    (h : solLoop ((k, v) :: rest) st = .ok sol) :
    (k = "solutionId" ∨ k = "score" ∨ k = "submissionAddress" ∨ k = "orders"
      ∨ k = "clearingPrices" ∨ k = "gas")
    ∧ (k = "orders" → ordersHasUnknown v = false)
    ∧ ∃ st2, solLoop rest st2 = .ok sol := by
  by_cases h1 : k = "solutionId"
  · simp only [solLoop, if_pos h1] at h
    refine ⟨Or.inl h1, fun ho => absurd (h1.symm.trans ho) (by decide), ?_⟩
    cases hf : st.solution_id with
    | some _ => rw [hf] at h; exact absurd h (by simp)
    | none =>
      rw [hf] at h
      cases hp : parseU64Str v with
      | ok n => rw [hp] at h; exact ⟨_, h⟩
      | error e => rw [hp] at h; exact absurd h (by simp)
  · by_cases h2 : k = "score"
    · simp only [solLoop, if_neg h1, if_pos h2] at h
      refine ⟨Or.inr (Or.inl h2), fun ho => absurd (h2.symm.trans ho) (by decide), ?_⟩
      cases hf : st.score with
      | some _ => rw [hf] at h; exact absurd h (by simp)
      | none =>
        rw [hf] at h
        cases hp : parseU256 v with
        | ok n => rw [hp] at h; exact ⟨_, h⟩
        | error e => rw [hp] at h; exact absurd h (by simp)
    · by_cases h3 : k = "submissionAddress"
      · simp only [solLoop, if_neg h1, if_neg h2, if_pos h3] at h
        refine ⟨Or.inr (Or.inr (Or.inl h3)),
          fun ho => absurd (h3.symm.trans ho) (by decide), ?_⟩
        cases hf : st.submission_address with
        | some _ => rw [hf] at h; exact absurd h (by simp)
        | none =>
          rw [hf] at h
          cases hp : parseH160 v with
          | ok n => rw [hp] at h; exact ⟨_, h⟩
          | error e => rw [hp] at h; exact absurd h (by simp)
      · by_cases h4 : k = "orders"
        · simp only [solLoop, if_neg h1, if_neg h2, if_neg h3, if_pos h4] at h
          cases hf : st.orders with
          | some _ => rw [hf] at h; exact absurd h (by simp)
          | none =>
            rw [hf] at h
            cases hp : parseOrders v with
            | ok os =>
              rw [hp] at h
              exact ⟨Or.inr (Or.inr (Or.inr (Or.inl h4))),
                fun _ => parseOrders_clean hp, _, h⟩
            | error e => rw [hp] at h; exact absurd h (by simp)
        · by_cases h5 : k = "clearingPrices"
          · simp only [solLoop, if_neg h1, if_neg h2, if_neg h3, if_neg h4,
              if_pos h5] at h
            refine ⟨Or.inr (Or.inr (Or.inr (Or.inr (Or.inl h5)))),
              fun ho => absurd (h5.symm.trans ho) (by decide), ?_⟩
            cases hf : st.clearing_prices with
            | some _ => rw [hf] at h; exact absurd h (by simp)
            | none =>
              rw [hf] at h
              cases hp : parsePrices v with
              | ok ps => rw [hp] at h; exact ⟨_, h⟩
              | error e => rw [hp] at h; exact absurd h (by simp)
          · by_cases h6 : k = "gas"
            · simp only [solLoop, if_neg h1, if_neg h2, if_neg h3, if_neg h4,
                if_neg h5, if_pos h6] at h
              refine ⟨Or.inr (Or.inr (Or.inr (Or.inr (Or.inr h6)))),
                fun ho => absurd (h6.symm.trans ho) (by decide), ?_⟩
              cases hf : st.gas with
              | some _ => rw [hf] at h; exact absurd h (by simp)
              | none =>
                rw [hf] at h
                cases v with
                | null => exact ⟨_, h⟩
                | bool b =>
                  cases hp : parseU64 (Json.bool b) with
                  | ok n => rw [hp] at h; exact ⟨_, h⟩
                  | error e => rw [hp] at h; exact absurd h (by simp)
                | num n =>
                  cases hp : parseU64 (Json.num n) with
                  | ok m => rw [hp] at h; exact ⟨_, h⟩
                  | error e => rw [hp] at h; exact absurd h (by simp)
                | str s =>
                  cases hp : parseU64 (Json.str s) with
                  | ok m => rw [hp] at h; exact ⟨_, h⟩
                  | error e => rw [hp] at h; exact absurd h (by simp)
                | arr es =>
                  cases hp : parseU64 (Json.arr es) with
                  | ok m => rw [hp] at h; exact ⟨_, h⟩
                  | error e => rw [hp] at h; exact absurd h (by simp)
                | obj fs =>
                  cases hp : parseU64 (Json.obj fs) with
                  | ok m => rw [hp] at h; exact ⟨_, h⟩
                  | error e => rw [hp] at h; exact absurd h (by simp)
            · simp only [solLoop, if_neg h1, if_neg h2, if_neg h3, if_neg h4,
                if_neg h5, if_neg h6] at h
              exact absurd h (by simp)

theorem solLoop_keys :
    ∀ (fields : List (String × Json)) (st : SolPartial) (sol : Solution),
      solLoop fields st = .ok sol →
      ∀ kv ∈ fields,
        (kv.1 = "solutionId" ∨ kv.1 = "score" ∨ kv.1 = "submissionAddress"
          ∨ kv.1 = "orders" ∨ kv.1 = "clearingPrices" ∨ kv.1 = "gas")
        ∧ (kv.1 = "orders" → ordersHasUnknown kv.2 = false) := by
  intro fields
  induction fields with
  | nil => intro st sol _ kv hkv; exact absurd hkv (List.not_mem_nil kv)
  | cons kv0 rest ih =>
    intro st sol h kv hkv
    obtain ⟨k, v⟩ := kv0
    obtain ⟨hk, ho, st2, hrest⟩ := solLoop_step h
    rcases List.mem_cons.mp hkv with heq | hkv2
    · exact heq ▸ ⟨hk, ho⟩
    · exact ih st2 sol hrest kv hkv2

theorem sol_deserialize_clean {j : Json} {sol : Solution}
    (h : Solution.deserialize j = .ok sol) : solutionHasUnknown j = false := by
  cases j with
  | obj fields =>
    simp only [Solution.deserialize] at h
    simp only [solutionHasUnknown]
    rw [List.any_eq_false]
    intro kv hkv
    obtain ⟨hk, ho⟩ := solLoop_keys fields SolPartial.empty sol h kv hkv
    rcases hk with h1 | h1 | h1 | h1 | h1 | h1
    · simp [h1]
    · simp [h1]
    · simp [h1]
    · simp [h1, ho h1]
    · simp [h1]
    · simp [h1]
  | null => rfl
  | bool b => rfl
  | num n => rfl
  | str s => rfl
  | arr es => rfl

theorem solutionsLoop_clean :
    ∀ (elems : List Json) (ss : List Solution),
      solutionsLoop elems = .ok ss →
      ∀ e ∈ elems, solutionHasUnknown e = false := by
  intro elems
  induction elems with
  | nil => intro ss _ e he; exact absurd he (List.not_mem_nil e)
  | cons e0 rest ih =>
    intro ss h e he
    simp only [solutionsLoop] at h
    cases hs : Solution.deserialize e0 with
    | error err => rw [hs] at h; exact absurd h (by simp)
    | ok s =>
      rw [hs] at h
      cases hr : solutionsLoop rest with
      | error err => rw [hr] at h; exact absurd h (by simp)
      | ok ss2 =>
        rcases List.mem_cons.mp he with heq | he2
        · exact heq ▸ sol_deserialize_clean hs
        · exact ih ss2 hr e he2

theorem parseSolutions_clean {j : Json} {ss : List Solution}
    (h : parseSolutions j = .ok ss) : solutionsHasUnknown j = false := by
  cases j with
  | arr elems =>
    simp only [parseSolutions] at h
    simp only [solutionsHasUnknown]
    rw [List.any_eq_false]
    intro e he
    simp [solutionsLoop_clean elems ss h e he]
  | null => rfl
  | bool b => rfl
  | num n => rfl
  | str s => rfl
  | obj fs => rfl

theorem respLoop_keys :
    ∀ (fields : List (String × Json)) (st : Option (List Solution)) (r : Response),
      respLoop fields st = .ok r →
      ∀ kv ∈ fields, kv.1 = "solutions" ∧ solutionsHasUnknown kv.2 = false := by
  intro fields
  induction fields with
  | nil => intro st r _ kv hkv; exact absurd hkv (List.not_mem_nil kv)
  | cons kv0 rest ih =>
    intro st r h kv hkv
    obtain ⟨k, v⟩ := kv0
    by_cases h1 : k = "solutions"
    · simp only [respLoop, if_pos h1] at h
      cases st with
      | some _ => exact absurd h (by simp)
      | none =>
        cases hp : parseSolutions v with
        | error e => rw [hp] at h; exact absurd h (by simp)
        | ok sols =>
          rw [hp] at h
          rcases List.mem_cons.mp hkv with heq | hkv2
          · exact heq ▸ ⟨h1, parseSolutions_clean hp⟩
          · exact ih (some sols) r h kv hkv2
    · simp only [respLoop, if_neg h1] at h
      exact absurd h (by simp)

theorem resp_deserialize_clean {j : Json} {r : Response}
    (h : Response.deserialize j = .ok r) : responseHasUnknown j = false := by
  cases j with
  | obj fields =>
    simp only [Response.deserialize] at h
    simp only [responseHasUnknown]
    rw [List.any_eq_false]
    intro kv hkv
    obtain ⟨hk, hs⟩ := respLoop_keys fields none r h kv hkv
    simp [hk, hs]
  | null => rfl
  | bool b => rfl
  | num n => rfl
  | str s => rfl
  | arr es => rfl

/-- Claim C6: deserialization of a solver response payload fails whenever
the payload carries a field not declared in the schema, at any nesting level
(`Response`, `Solution`, `TradedAmounts`): unknown fields are rejected, not
ignored. -/
theorem c6_unknown_fields (j : Json) (h : responseHasUnknown j = true) :
    ∀ r : Response, Response.deserialize j ≠ .ok r := by
  intro r hok
  rw [resp_deserialize_clean hok] at h
  exact absurd h (by simp)

/-- Witness for C6: a payload with a well-formed `solutions` array and one
extra top-level field is rejected. -/
theorem c6_unknown_fields_witness :
    Response.deserialize (.obj [("solutions", .arr []), ("extra", .null)])
      ≠ .ok ⟨[]⟩ :=
  c6_unknown_fields (.obj [("solutions", .arr []), ("extra", .null)])
    (by rfl) ⟨[]⟩

end Solve

namespace Colocation

theorem isPrefixOf_append_right :
    ∀ (pat w v : List Char), (∀ c, v.head? = some c → c ∉ pat) →
      pat.isPrefixOf (w ++ v) = pat.isPrefixOf w := by
  intro pat
  induction pat with
  | nil => intro w v _; simp [List.isPrefixOf]
  | cons p ps ih =>
    intro w v hv
    cases w with
    | nil =>
      simp only [List.nil_append]
      cases v with
      | nil => rfl
      | cons c v2 =>
        have hmem : c ∉ p :: ps := hv c rfl
        have hpc : (p == c) = false := by
          simp only [beq_eq_false_iff_ne]
          intro he
          exact hmem (by rw [← he]; exact List.mem_cons_self p ps)
        simp [List.isPrefixOf, hpc]
    | cons a w2 =>
      simp only [List.cons_append, List.isPrefixOf, List.append_eq]
      rw [ih w2 v (fun c hc hmem => hv c hc (List.mem_cons_of_mem p hmem))]

theorem isPrefixOf_append_left :
    ∀ (u pat v : List Char), u ≠ [] →
      (∀ c, u.getLast? = some c → c ∉ pat) →
      pat.isPrefixOf (u ++ v) = pat.isPrefixOf u := by
  intro u
  induction u with
  | nil => intro pat v h _; exact absurd rfl h
  | cons a u2 ih =>
    intro pat v _ hlast
    cases pat with
    | nil => simp [List.isPrefixOf]
    | cons p ps =>
      cases u2 with
      | nil =>
        simp only [List.cons_append, List.nil_append, List.isPrefixOf]
        have hpa : (p == a) = false := by
          simp only [beq_eq_false_iff_ne]
          intro he
          exact (hlast a rfl) (by rw [← he]; exact List.mem_cons_self p ps)
        simp [hpa]
      | cons b u3 =>
        simp only [List.cons_append, List.isPrefixOf, List.append_eq]
        show (p == a && ps.isPrefixOf ((b :: u3) ++ v))
          = (p == a && ps.isPrefixOf (b :: u3))
        rw [ih ps v (by simp)
          (fun c hc hmem =>
            hlast c (by rw [List.getLast?_cons_cons]; exact hc)
              (List.mem_cons_of_mem p hmem))]

theorem occCount_append_right :
    ∀ (u pat v : List Char), (∀ c, v.head? = some c → c ∉ pat) →
      occCount pat (u ++ v) = occCount pat u + occCount pat v := by
  intro u
  induction u with
  | nil => intro pat v _; simp [occCount]
  | cons a u2 ih =>
    intro pat v hv
    have e1 : (a :: u2) ++ v = a :: (u2 ++ v) := rfl
    have e2 := isPrefixOf_append_right pat (a :: u2) v hv
    rw [e1] at e2
    rw [e1]
    simp only [occCount]
    rw [e2, ih pat v hv]
    omega

theorem occCount_append_left :
    ∀ (u pat v : List Char), (∀ c, u.getLast? = some c → c ∉ pat) →
      occCount pat (u ++ v) = occCount pat u + occCount pat v := by
  intro u
  induction u with
  | nil => intro pat v _; simp [occCount]
  | cons a u2 ih =>
    intro pat v hlast
    have e1 : (a :: u2) ++ v = a :: (u2 ++ v) := rfl
    have e2 := isPrefixOf_append_left (a :: u2) pat v (by simp) hlast
    rw [e1] at e2
    rw [e1]
    simp only [occCount]
    rw [e2]
    cases u2 with
    | nil => simp only [List.nil_append, occCount]; omega
    | cons b u3 =>
      rw [ih pat v (fun c hc =>
        hlast c (by rw [List.getLast?_cons_cons]; exact hc))]
      omega

theorem occCount_zero_of_head_notMem :
    ∀ (s : List Char) (p : Char) (ps : List Char), p ∉ s →
      occCount (p :: ps) s = 0 := by
  intro s
  induction s with
  | nil => intro p ps _; rfl
  | cons a rest ih =>
    intro p ps hp
    have hpa : (p == a) = false := by
      simp only [beq_eq_false_iff_ne]
      intro he
      exact hp (by rw [he]; exact List.mem_cons_self a rest)
    simp only [occCount, List.isPrefixOf, hpa, Bool.false_and,
      Bool.false_eq_true, if_false, Nat.zero_add]
    exact ih p ps (fun hm => hp (List.mem_cons_of_mem a hm))

theorem occ_zero_head (pat s : List Char) (c : Char) (hc : pat.head? = some c)
    (hs : c ∉ s) : occCount pat s = 0 := by
  cases pat with
  | nil => simp at hc
  | cons p ps =>
    rw [List.head?_cons] at hc
    cases hc
    exact occCount_zero_of_head_notMem s c ps hs

theorem headCond (r pat : List Char) (c : Char) (hr : r.head? = some c)
    (hc : c ∉ pat) : ∀ x, r.head? = some x → x ∉ pat := by
  intro x hx
  rw [hr] at hx
  cases hx
  exact hc

theorem lastCond (u pat : List Char) (c : Char) (hu : u.getLast? = some c)
    (hc : c ∉ pat) : ∀ x, u.getLast? = some x → x ∉ pat := by
  intro x hx
  rw [hu] at hx
  cases hx
  exact hc

theorem nibbleChar_ne_bracket : ∀ k, k < 16 → nibbleChar k ≠ '[' := by
  decide

theorem digitChar_ne_bracket : ∀ d, d < 10 → digitChar d ≠ '[' := by
  decide

theorem not_mem_hexFixed (w n : Nat) : '[' ∉ hexFixed w n := by
  intro h
  simp only [hexFixed] at h
  obtain ⟨i, _, hi⟩ := List.mem_map.mp h
  exact nibbleChar_ne_bracket _ (Nat.mod_lt _ (by decide)) hi

theorem not_mem_h160 (a : Nat) : '[' ∉ (h160Repr a).data := by
  intro h
  rcases List.mem_cons.mp h with h | h
  · exact absurd h (by decide)
  rcases List.mem_cons.mp h with h | h
  · exact absurd h (by decide)
  · exact not_mem_hexFixed 40 a h

theorem not_mem_h256 (a : Nat) : '[' ∉ (h256Repr a).data := by
  intro h
  rcases List.mem_cons.mp h with h | h
  · exact absurd h (by decide)
  rcases List.mem_cons.mp h with h | h
  · exact absurd h (by decide)
  · exact not_mem_hexFixed 64 a h

theorem not_mem_hexEncode (bs : List Nat) : '[' ∉ (hexEncode bs).data := by
  intro h
  obtain ⟨b, _, hc⟩ := List.mem_flatMap.mp h
  rcases List.mem_cons.mp hc with hc | hc
  · exact nibbleChar_ne_bracket _ (Nat.mod_lt _ (by decide)) hc.symm
  rcases List.mem_cons.mp hc with hc | hc
  · exact nibbleChar_ne_bracket _ (Nat.mod_lt _ (by decide)) hc.symm
  · exact absurd hc (List.not_mem_nil _)

theorem natDecAux_chars :
    ∀ (n : Nat) (acc : List Char) (c : Char), c ∈ natDecAux n acc →
      c ∈ acc ∨ ∃ d, d < 10 ∧ c = digitChar d := by
  intro n
  induction n using Nat.strong_induction_on with
  | _ n ih =>
    intro acc c hc
    match n with
    | 0 =>
      simp only [natDecAux] at hc
      exact Or.inl hc
    | m + 1 =>
      rw [natDecAux] at hc
      rcases ih ((m + 1) / 10) (Nat.div_lt_self (Nat.succ_pos m) (by decide))
          _ c hc with h | h
      · rcases List.mem_cons.mp h with heq | hacc
        · exact Or.inr ⟨(m + 1) % 10, Nat.mod_lt _ (by decide), heq⟩
        · exact Or.inl hacc
      · exact Or.inr h

theorem not_mem_natDec (n : Nat) : '[' ∉ (natDec n).data := by
  intro h
  simp only [natDec] at h
  split at h
  · exact absurd h (by decide)
  · rcases natDecAux_chars n [] '[' h with h | ⟨d, hd, he⟩
    · exact absurd h (List.not_mem_nil _)
    · exact digitChar_ne_bracket d hd he.symm

theorem not_mem_debugUrl (p : Nat) :
    '[' ∉ (debugStr ("http://0.0.0.0:" ++ natDec p)).data := by
  intro h
  simp only [debugStr, String.data_append, List.append_assoc,
    List.mem_append] at h
  rcases h with h | h | h | h
  · exact absurd h (by decide)
  · exact absurd h (by decide)
  · exact not_mem_natDec p h
  · exact absurd h (by decide)

end Colocation

namespace Colocation

theorem occ_zero_newline (pat : List Char) (hpne : pat ≠ [])
    (hnl : ('\n' : Char) ∉ pat) : occCount pat ['\n'] = 0 := by
  cases pat with
  | nil => exact absurd rfl hpne
  | cons p ps =>
    apply occCount_zero_of_head_notMem
    intro hm
    rcases List.mem_cons.mp hm with heq | h
    · exact hnl (by rw [← heq]; exact List.mem_cons_self p ps)
    · exact absurd h (List.not_mem_nil _)

theorem occCount_joinSep (pat : List Char) (hpne : pat ≠ [])
    (hnl : ('\n' : Char) ∉ pat) :
    ∀ parts : List String,
      occCount pat (joinSep "\n" parts).data
        = (parts.map (fun s => occCount pat s.data)).sum := by
  intro parts
  induction parts with
  | nil => simp [joinSep, occCount]
  | cons s rest ih =>
    cases rest with
    | nil => simp [joinSep]
    | cons s2 rest2 =>
      show occCount pat ((s ++ "\n" ++ joinSep "\n" (s2 :: rest2)).data) = _
      rw [String.data_append, String.data_append, List.append_assoc]
      have h0 : occCount pat ("\n" : String).data = 0 :=
        occ_zero_newline pat hpne hnl
      rw [occCount_append_right s.data pat
          (("\n" : String).data ++ (joinSep "\n" (s2 :: rest2)).data)
          (headCond _ _ '\n' rfl hnl),
        occCount_append_left ("\n" : String).data pat
          (joinSep "\n" (s2 :: rest2)).data (lastCond _ _ '\n' rfl hnl),
        ih, h0]
      simp only [List.map_cons, List.sum_cons]
      omega

theorem occ_solverBlock (pat : List Char) (e : SolverEngine)
    (hq : ('"' : Char) ∉ pat)
    (hn : occCount pat e.name.data = 0) (he : occCount pat e.endpoint.data = 0) :
    occCount pat (solverBlock e).data
      = occCount pat solverLit1.data + occCount pat solverLit2.data
        + occCount pat solverLit3.data + occCount pat solverLit4.data
        + occCount pat (hexEncode e.account).data := by
  simp only [solverBlock, String.data_append, List.append_assoc]
  rw [occCount_append_left solverLit1.data pat,
    occCount_append_right e.name.data pat,
    occCount_append_left solverLit2.data pat,
    occCount_append_right e.endpoint.data pat,
    occCount_append_left solverLit3.data pat,
    occCount_append_right (hexEncode e.account).data pat,
    hn, he]
  · omega
  · exact headCond _ _ '"' rfl hq
  · exact lastCond _ _ '"' rfl hq
  · exact headCond _ _ '"' rfl hq
  · exact lastCond _ _ '"' rfl hq
  · exact headCond _ _ '"' rfl hq
  · exact lastCond _ _ '"' rfl hq

end Colocation

namespace Colocation

theorem occ_solverBlock_header (e : SolverEngine)
    (hn : occStr solverHeader e.name = 0) (he : occStr solverHeader e.endpoint = 0) :
    occCount solverHeader.data (solverBlock e).data = 1 := by
  have hx : occCount solverHeader.data (hexEncode e.account).data = 0 :=
    occ_zero_head _ _ '[' rfl (not_mem_hexEncode e.account)
  rw [occ_solverBlock solverHeader.data e (by decide) hn he, hx]
  decide

theorem occ_solverBlock_mempool (e : SolverEngine)
    (hn : occStr mempoolHeader e.name = 0) (he : occStr mempoolHeader e.endpoint = 0) :
    occCount mempoolHeader.data (solverBlock e).data = 0 := by
  have hx : occCount mempoolHeader.data (hexEncode e.account).data = 0 :=
    occ_zero_head _ _ '[' rfl (not_mem_hexEncode e.account)
  rw [occ_solverBlock mempoolHeader.data e (by decide) hn he, hx]
  decide

theorem occ_solversSection_header :
    ∀ engines : List SolverEngine,
      (∀ e ∈ engines, occStr solverHeader e.name = 0
        ∧ occStr solverHeader e.endpoint = 0) →
      occStr solverHeader (solversSection engines) = engines.length := by
  intro engines h
  unfold occStr solversSection
  rw [occCount_joinSep solverHeader.data (by decide) (by decide)]
  induction engines with
  | nil => rfl
  | cons e rest ih =>
    simp only [List.map_cons, List.sum_cons]
    rw [occ_solverBlock_header e (h e (List.mem_cons_self e rest)).1
      (h e (List.mem_cons_self e rest)).2]
    rw [ih (fun e2 h2 => h e2 (List.mem_cons_of_mem e h2))]
    simp only [List.length_cons]
    omega

theorem occ_solversSection_mempool :
    ∀ engines : List SolverEngine,
      (∀ e ∈ engines, occStr mempoolHeader e.name = 0
        ∧ occStr mempoolHeader e.endpoint = 0) →
      occStr mempoolHeader (solversSection engines) = 0 := by
  intro engines h
  unfold occStr solversSection
  rw [occCount_joinSep mempoolHeader.data (by decide) (by decide)]
  apply List.sum_eq_zero
  intro x hx
  obtain ⟨y, hy, rfl⟩ := List.mem_map.mp hx
  obtain ⟨e, he, rfl⟩ := List.mem_map.mp hy
  exact occ_solverBlock_mempool e (h e he).1 (h e he).2

theorem occ_cowAmmBlock (pat : List Char) (hq : ('"' : Char) ∉ pat)
    (hnl : ('\n' : Char) ∉ pat) (hsp : (' ' : Char) ∉ pat)
    (hbr : pat.head? = some '[') (c : Contract) (s : String)
    (h : cowAmmBlock c = some s) :
    occCount pat s.data
      = occCount pat cowLit1.data + occCount pat cowLit2.data
        + occCount pat cowLit3.data + occCount pat cowLit4.data := by
  obtain ⟨addr, di⟩ := c
  cases di with
  | none => exact absurd h (by simp [cowAmmBlock])
  | some dinfo =>
    cases dinfo with
    | transactionHash th => exact absurd h (by simp [cowAmmBlock])
    | blockNumber b =>
      simp only [cowAmmBlock] at h
      by_cases hb : b = 0
      · rw [if_pos hb] at h; exact absurd h (by simp)
      · rw [if_neg hb] at h
        obtain rfl := (Option.some.inj h).symm
        have z1 : occCount pat (natDec (b - 1)).data = 0 :=
          occ_zero_head _ _ '[' hbr (not_mem_natDec _)
        have z2 : occCount pat (h160Repr addr).data = 0 :=
          occ_zero_head _ _ '[' hbr (not_mem_h160 _)
        simp only [String.data_append, List.append_assoc]
        rw [occCount_append_left cowLit1.data pat,
          occCount_append_right (natDec (b - 1)).data pat,
          occCount_append_left cowLit2.data pat,
          occCount_append_right (h160Repr addr).data pat,
          occCount_append_left cowLit3.data pat,
          occCount_append_right (h160Repr addr).data pat,
          z1, z2]
        · omega
        · exact headCond _ _ '"' rfl hq
        · exact lastCond _ _ '"' rfl hq
        · exact headCond _ _ '"' rfl hq
        · exact lastCond _ _ '"' rfl hq
        · exact headCond _ _ '\n' rfl hnl
        · exact lastCond _ _ ' ' rfl hsp

theorem cowAmmBlocks_mem :
    ∀ (cs : List Contract) (ss : List String), cowAmmBlocks cs = some ss →
      ∀ s ∈ ss, ∃ c ∈ cs, cowAmmBlock c = some s := by
  intro cs
  induction cs with
  | nil =>
    intro ss h s hs
    simp only [cowAmmBlocks] at h
    cases Option.some.inj h
    exact absurd hs (List.not_mem_nil s)
  | cons c rest ih =>
    intro ss h s hs
    simp only [cowAmmBlocks] at h
    cases hc : cowAmmBlock c with
    | none => rw [hc] at h; exact absurd h (by simp)
    | some s0 =>
      rw [hc] at h
      cases hr : cowAmmBlocks rest with
      | none => rw [hr] at h; exact absurd h (by simp)
      | some ss2 =>
        rw [hr] at h
        cases Option.some.inj h
        rcases List.mem_cons.mp hs with heq | hs2
        · exact ⟨c, List.mem_cons_self c rest, heq ▸ hc⟩
        · obtain ⟨c2, hc2, he2⟩ := ih ss2 hr s hs2
          exact ⟨c2, List.mem_cons_of_mem c hc2, he2⟩

theorem occ_cowAmms_zero (pat : List Char) (hq : ('"' : Char) ∉ pat)
    (hnl : ('\n' : Char) ∉ pat) (hsp : (' ' : Char) ∉ pat)
    (hbr : pat.head? = some '[') (hpne : pat ≠ [])
    (h1 : occCount pat cowLit1.data = 0) (h2 : occCount pat cowLit2.data = 0)
    (h3 : occCount pat cowLit3.data = 0) (h4 : occCount pat cowLit4.data = 0)
    (cs : List Contract) (ss : List String) (hss : cowAmmBlocks cs = some ss) :
    occCount pat (joinSep "\n" ss).data = 0 := by
  rw [occCount_joinSep pat hpne hnl]
  apply List.sum_eq_zero
  intro x hx
  obtain ⟨s, hs, rfl⟩ := List.mem_map.mp hx
  obtain ⟨c, -, hc⟩ := cowAmmBlocks_mem cs ss hss s hs
  rw [occ_cowAmmBlock pat hq hnl hsp hbr c s hc, h1, h2, h3, h4]
  rfl

theorem occ_liq_uniswap (pat : List Char) (hq : ('"' : Char) ∉ pat)
    (hbr : pat.head? = some '[') (contracts : Contracts) :
    occCount pat ((LiquidityProvider.uniswapV2).toConfig contracts).data
      = occCount pat uniLit1.data + occCount pat uniLit2.data
        + occCount pat uniLit3.data := by
  have z1 : occCount pat (h160Repr contracts.uniswapV2Router).data = 0 :=
    occ_zero_head _ _ '[' hbr (not_mem_h160 _)
  have z2 : occCount pat (h256Repr contracts.defaultPoolCode).data = 0 :=
    occ_zero_head _ _ '[' hbr (not_mem_h256 _)
  simp only [LiquidityProvider.toConfig, String.data_append, List.append_assoc]
  rw [occCount_append_left uniLit1.data pat,
    occCount_append_right (h160Repr contracts.uniswapV2Router).data pat,
    occCount_append_left uniLit2.data pat,
    occCount_append_right (h256Repr contracts.defaultPoolCode).data pat,
    z1, z2]
  · omega
  · exact headCond _ _ '"' rfl hq
  · exact lastCond _ _ '"' rfl hq
  · exact headCond _ _ '"' rfl hq
  · exact lastCond _ _ '"' rfl hq

theorem occ_liq_zeroEx (pat : List Char)
    (hnl : ('\n' : Char) ∉ pat) (hsp : (' ' : Char) ∉ pat)
    (hbr : pat.head? = some '[') (port : Nat) (contracts : Contracts) :
    occCount pat ((LiquidityProvider.zeroEx port).toConfig contracts).data
      = occCount pat zeroLit1.data + occCount pat (debugStr "no-api-key").data
        + occCount pat zeroLit2.data + occCount pat zeroLit3.data := by
  have z1 : occCount pat (debugStr ("http://0.0.0.0:" ++ natDec port)).data = 0 :=
    occ_zero_head _ _ '[' hbr (not_mem_debugUrl port)
  simp only [LiquidityProvider.toConfig, String.data_append, List.append_assoc]
  rw [occCount_append_left zeroLit1.data pat,
    occCount_append_right (debugStr ("http://0.0.0.0:" ++ natDec port)).data pat,
    occCount_append_left zeroLit2.data pat,
    occCount_append_right (debugStr "no-api-key").data pat,
    z1]
  · omega
  · exact headCond _ _ '\n' rfl hnl
  · exact lastCond _ _ ' ' rfl hsp
  · exact headCond _ _ '\n' rfl hnl
  · exact lastCond _ _ ' ' rfl hsp

end Colocation

namespace Colocation

theorem occ_startDriverConfig (pat : List Char) (hq : ('"' : Char) ∉ pat)
    (hnl : ('\n' : Char) ∉ pat)
    (contracts : Contracts) (engines : List SolverEngine)
    (liquidity : LiquidityProvider) (cfg : String) (cowAmms : String)
    (hbr : pat.head? = some '[')
    (hAmms : cowAmmsSection contracts.cowAmmHelper = some cowAmms)
    (hcfg : startDriverConfig contracts engines liquidity = some cfg) :
    occCount pat cfg.data
      = occCount pat cfgLit1.data + occCount pat cfgLit2.data
        + occCount pat cfgLit3.data + occCount pat cowAmms.data
        + occCount pat cfgLit4.data
        + occCount pat (solversSection engines).data + occCount pat cfgLit5.data
        + occCount pat ((liquidity.toConfig contracts)).data
        + occCount pat submissionSection.data := by
  unfold startDriverConfig at hcfg
  rw [hAmms] at hcfg
  simp only [Option.map_some'] at hcfg
  obtain rfl := (Option.some.inj hcfg).symm
  have z1 : occCount pat (h160Repr contracts.gpSettlement).data = 0 :=
    occ_zero_head _ _ '[' hbr (not_mem_h160 _)
  have z2 : occCount pat (h160Repr contracts.weth).data = 0 :=
    occ_zero_head _ _ '[' hbr (not_mem_h160 _)
  simp only [String.data_append, List.append_assoc]
  rw [occCount_append_left cfgLit1.data pat,
    occCount_append_right (h160Repr contracts.gpSettlement).data pat,
    occCount_append_left cfgLit2.data pat,
    occCount_append_right (h160Repr contracts.weth).data pat,
    occCount_append_left cfgLit3.data pat,
    occCount_append_right cowAmms.data pat,
    occCount_append_left cfgLit4.data pat,
    occCount_append_right (solversSection engines).data pat,
    occCount_append_left cfgLit5.data pat,
    occCount_append_right ((liquidity.toConfig contracts)).data pat,
    z1, z2]
  · omega
  · refine headCond _ _ '\n' ?_ hnl
    rfl
  · refine lastCond _ _ '\n' ?_ hnl
    rfl
  · refine headCond _ _ '\n' ?_ hnl
    rfl
  · refine lastCond _ _ '\n' ?_ hnl
    rfl
  · refine headCond _ _ '\n' ?_ hnl
    rfl
  · refine lastCond _ _ '\n' ?_ hnl
    rfl
  · refine headCond _ _ '"' ?_ hq
    rfl
  · refine lastCond _ _ '"' ?_ hq
    rfl
  · refine headCond _ _ '"' ?_ hq
    rfl
  · refine lastCond _ _ '"' ?_ hq
    rfl

theorem containsStr_trans {s m t : String} (h1 : containsStr s m)
    (h2 : containsStr m t) : containsStr s t := by
  obtain ⟨u1, v1, e1⟩ := h1
  obtain ⟨u2, v2, e2⟩ := h2
  exact ⟨u1 ++ u2, v2 ++ v1, by rw [e1, e2]; simp [List.append_assoc]⟩

theorem joinSep_contains :
    ∀ (parts : List String) (s : String), s ∈ parts →
      containsStr (joinSep "\n" parts) s := by
  intro parts
  induction parts with
  | nil => intro s hs; exact absurd hs (List.not_mem_nil s)
  | cons p rest ih =>
    intro s hs
    rcases List.mem_cons.mp hs with heq | hs2
    · cases heq
      cases rest with
      | nil => exact ⟨[], [], by simp [joinSep]⟩
      | cons p2 r2 =>
        refine ⟨[], '\n' :: (joinSep "\n" (p2 :: r2)).data, ?_⟩
        show (p ++ "\n" ++ joinSep "\n" (p2 :: r2)).data = _
        rw [String.data_append, String.data_append]
        simp [List.append_assoc]
    · cases rest with
      | nil => exact absurd hs2 (List.not_mem_nil s)
      | cons p2 r2 =>
        obtain ⟨u, v, hu⟩ := ih s hs2
        refine ⟨p.data ++ ('\n' :: u), v, ?_⟩
        show (p ++ "\n" ++ joinSep "\n" (p2 :: r2)).data = _
        rw [String.data_append, String.data_append, hu]
        simp [List.append_assoc]

theorem config_contains_solvers (contracts : Contracts)
    (engines : List SolverEngine) (liquidity : LiquidityProvider)
    (cfg cowAmms : String)
    (hAmms : cowAmmsSection contracts.cowAmmHelper = some cowAmms)
    (hcfg : startDriverConfig contracts engines liquidity = some cfg) :
    containsStr cfg (solversSection engines) := by
  unfold startDriverConfig at hcfg
  rw [hAmms] at hcfg
  simp only [Option.map_some'] at hcfg
  obtain rfl := (Option.some.inj hcfg).symm
  refine ⟨(cfgLit1 ++ h160Repr contracts.gpSettlement ++ cfgLit2
      ++ h160Repr contracts.weth ++ cfgLit3 ++ cowAmms ++ cfgLit4).data,
    (cfgLit5 ++ liquidity.toConfig contracts ++ submissionSection).data, ?_⟩
  simp only [String.data_append, List.append_assoc]

theorem config_contains_cowAmms (contracts : Contracts)
    (engines : List SolverEngine) (liquidity : LiquidityProvider)
    (cfg cowAmms : String)
    (hAmms : cowAmmsSection contracts.cowAmmHelper = some cowAmms)
    (hcfg : startDriverConfig contracts engines liquidity = some cfg) :
    containsStr cfg cowAmms := by
  unfold startDriverConfig at hcfg
  rw [hAmms] at hcfg
  simp only [Option.map_some'] at hcfg
  obtain rfl := (Option.some.inj hcfg).symm
  refine ⟨(cfgLit1 ++ h160Repr contracts.gpSettlement ++ cfgLit2
      ++ h160Repr contracts.weth ++ cfgLit3).data,
    (cfgLit4 ++ solversSection engines ++ cfgLit5
      ++ liquidity.toConfig contracts ++ submissionSection).data, ?_⟩
  simp only [String.data_append, List.append_assoc]

theorem config_contains_submission (contracts : Contracts)
    (engines : List SolverEngine) (liquidity : LiquidityProvider)
    (cfg cowAmms : String)
    (hAmms : cowAmmsSection contracts.cowAmmHelper = some cowAmms)
    (hcfg : startDriverConfig contracts engines liquidity = some cfg) :
    containsStr cfg submissionSection := by
  unfold startDriverConfig at hcfg
  rw [hAmms] at hcfg
  simp only [Option.map_some'] at hcfg
  obtain rfl := (Option.some.inj hcfg).symm
  refine ⟨(cfgLit1 ++ h160Repr contracts.gpSettlement ++ cfgLit2
      ++ h160Repr contracts.weth ++ cfgLit3 ++ cowAmms ++ cfgLit4
      ++ solversSection engines ++ cfgLit5
      ++ liquidity.toConfig contracts).data, [], ?_⟩
  simp only [String.data_append, List.append_assoc, List.append_nil]

theorem solverBlock_contains_name (e : SolverEngine) :
    containsStr (solverBlock e) ("name = \"" ++ e.name ++ "\"") := by
  refine ⟨("\n[[solver]]\n" : String).data,
    ("\nendpoint = \"" ++ e.endpoint ++ solverLit3
      ++ hexEncode e.account ++ solverLit4).data, ?_⟩
  simp only [solverBlock, String.data_append, List.append_assoc]
  rfl

theorem solverBlock_contains_endpoint (e : SolverEngine) :
    containsStr (solverBlock e) ("endpoint = \"" ++ e.endpoint ++ "\"") := by
  refine ⟨(solverLit1 ++ e.name ++ "\"\n").data,
    ("\nrelative-slippage = \"0.1\"\naccount = \""
      ++ hexEncode e.account ++ solverLit4).data, ?_⟩
  simp only [solverBlock, String.data_append, List.append_assoc]
  rfl

theorem solverBlock_contains_account (e : SolverEngine) :
    containsStr (solverBlock e) ("account = \"" ++ hexEncode e.account ++ "\"") := by
  refine ⟨(solverLit1 ++ e.name ++ solverLit2 ++ e.endpoint
      ++ "\"\nrelative-slippage = \"0.1\"\n").data, ("\n\n" : String).data, ?_⟩
  simp only [solverBlock, String.data_append, List.append_assoc]
  rfl

theorem solverBlock_contains_slippage (e : SolverEngine) :
    containsStr (solverBlock e) "relative-slippage = \"0.1\"" := by
  refine ⟨(solverLit1 ++ e.name ++ solverLit2 ++ e.endpoint ++ "\"\n").data,
    ("\naccount = \"" ++ hexEncode e.account ++ solverLit4).data, ?_⟩
  simp only [solverBlock, String.data_append, List.append_assoc]
  rfl

end Colocation
namespace Colocation

theorem cowAmmBlocks_none :
    ∀ cs : List Contract, (∃ c ∈ cs, cowAmmBlock c = none) →
      cowAmmBlocks cs = none := by
  intro cs
  induction cs with
  | nil =>
    intro h
    obtain ⟨c, hc, -⟩ := h
    exact absurd hc (List.not_mem_nil c)
  | cons c0 rest ih =>
    intro h
    obtain ⟨c, hc, hnone⟩ := h
    rcases List.mem_cons.mp hc with heq | hc2
    · rw [heq] at hnone
      simp [cowAmmBlocks, hnone]
    · have hrest := ih ⟨c, hc2, hnone⟩
      cases hx : cowAmmBlock c0 with
      | none => simp [cowAmmBlocks, hx]
      | some s => simp [cowAmmBlocks, hx, hrest]

theorem cowAmmBlocks_some :
    ∀ cs : List Contract, (∀ c ∈ cs, ∃ s, cowAmmBlock c = some s) →
      ∃ ss, cowAmmBlocks cs = some ss := by
  intro cs
  induction cs with
  | nil => intro _; exact ⟨[], rfl⟩
  | cons c0 rest ih =>
    intro h
    obtain ⟨s0, h0⟩ := h c0 (List.mem_cons_self c0 rest)
    obtain ⟨ss, hss⟩ := ih (fun c hc => h c (List.mem_cons_of_mem c0 hc))
    exact ⟨s0 :: ss, by simp [cowAmmBlocks, h0, hss]⟩

theorem cowAmmBlocks_mem_fwd :
    ∀ (cs : List Contract) (ss : List String), cowAmmBlocks cs = some ss →
      ∀ c ∈ cs, ∃ s ∈ ss, cowAmmBlock c = some s := by
  intro cs
  induction cs with
  | nil => intro ss _ c hc; exact absurd hc (List.not_mem_nil c)
  | cons c0 rest ih =>
    intro ss h c hc
    simp only [cowAmmBlocks] at h
    cases hc0 : cowAmmBlock c0 with
    | none => rw [hc0] at h; exact absurd h (by simp)
    | some s0 =>
      rw [hc0] at h
      cases hr : cowAmmBlocks rest with
      | none => rw [hr] at h; exact absurd h (by simp)
      | some ss2 =>
        rw [hr] at h
        cases Option.some.inj h
        rcases List.mem_cons.mp hc with heq | hc2
        · exact ⟨s0, List.mem_cons_self s0 ss2, heq ▸ hc0⟩
        · obtain ⟨s, hs, he⟩ := ih ss2 hr c hc2
          exact ⟨s, List.mem_cons_of_mem s0 hs, he⟩

end Colocation

namespace Colocation

/-- Claim C7: for every engine list, the driver configuration text generated
by `start_driver` contains exactly one `[[solver]]` block per engine (counted
as occurrences of the block header, under the hypothesis that no engine name
or endpoint itself contains a block header), the blocks appear contiguously
in list order, each block carries its engine's name, endpoint, hex-encoded
account private key and a relative slippage of 0.1, and the configuration
carries a submission section with gas-price-cap 1000000000000 and exactly
one mempool route, the public one. -/
theorem c7_driver_config (contracts : Contracts) (engines : List SolverEngine)
    (liquidity : LiquidityProvider) (cfg : String)
    (hcfg : startDriverConfig contracts engines liquidity = some cfg)
    (heng : ∀ e ∈ engines,
      occStr solverHeader e.name = 0 ∧ occStr solverHeader e.endpoint = 0
        ∧ occStr mempoolHeader e.name = 0 ∧ occStr mempoolHeader e.endpoint = 0) :
    occStr solverHeader cfg = engines.length
    ∧ occStr mempoolHeader cfg = 1
    ∧ containsStr cfg (solversSection engines)
    ∧ (∀ e ∈ engines, containsStr cfg (solverBlock e)
        ∧ containsStr (solverBlock e) ("name = \"" ++ e.name ++ "\"")
        ∧ containsStr (solverBlock e) ("endpoint = \"" ++ e.endpoint ++ "\"")
        ∧ containsStr (solverBlock e) ("account = \"" ++ hexEncode e.account ++ "\"")
        ∧ containsStr (solverBlock e) "relative-slippage = \"0.1\"")
    ∧ containsStr cfg
        "[submission]\ngas-price-cap = \"1000000000000\"\n\n[[submission.mempool]]\nmempool = \"public\"\n" := by
  have hAmmsEx : ∃ cowAmms, cowAmmsSection contracts.cowAmmHelper = some cowAmms := by
    unfold startDriverConfig at hcfg
    cases hA : cowAmmsSection contracts.cowAmmHelper with
    | none => rw [hA] at hcfg; simp at hcfg
    | some s => exact ⟨s, rfl⟩
  obtain ⟨cowAmms, hAmms⟩ := hAmmsEx
  have hBlocksEx : ∃ ss, cowAmmBlocks contracts.cowAmmHelper = some ss
      ∧ cowAmms = joinSep "\n" ss := by
    unfold cowAmmsSection at hAmms
    cases hB : cowAmmBlocks contracts.cowAmmHelper with
    | none => rw [hB] at hAmms; simp at hAmms
    | some ss =>
      rw [hB] at hAmms
      simp only [Option.map_some'] at hAmms
      exact ⟨ss, rfl, (Option.some.inj hAmms).symm⟩
  obtain ⟨ss, hB, rfl⟩ := hBlocksEx
  refine ⟨?_, ?_, ?_, ?_, ?_⟩
  · have hdecomp := occ_startDriverConfig solverHeader.data (by decide) (by decide)
      contracts engines liquidity cfg (joinSep "\n" ss) rfl hAmms hcfg
    have h0 := occ_cowAmms_zero solverHeader.data (by decide) (by decide)
      (by decide) rfl (by decide) (by decide) (by decide) (by decide) (by decide)
      contracts.cowAmmHelper ss hB
    have hsolv := occ_solversSection_header engines
      (fun e he => ⟨(heng e he).1, (heng e he).2.1⟩)
    have hliq : occCount solverHeader.data ((liquidity.toConfig contracts)).data
        = 0 := by
      cases liquidity with
      | uniswapV2 =>
        rw [occ_liq_uniswap solverHeader.data (by decide) rfl contracts]
        decide
      | zeroEx p =>
        rw [occ_liq_zeroEx solverHeader.data (by decide) (by decide) rfl p contracts]
        decide
    show occStr solverHeader cfg = engines.length
    unfold occStr
    rw [hdecomp, h0, hliq,
      show occCount solverHeader.data (solversSection engines).data
        = engines.length from hsolv]
    have l1 : occCount solverHeader.data cfgLit1.data = 0 := by decide
    have l2 : occCount solverHeader.data cfgLit2.data = 0 := by decide
    have l3 : occCount solverHeader.data cfgLit3.data = 0 := by decide
    have l4 : occCount solverHeader.data cfgLit4.data = 0 := by decide
    have l5 : occCount solverHeader.data cfgLit5.data = 0 := by decide
    have l6 : occCount solverHeader.data submissionSection.data = 0 := by decide
    rw [l1, l2, l3, l4, l5, l6]
    omega
  · have hdecomp := occ_startDriverConfig mempoolHeader.data (by decide) (by decide)
      contracts engines liquidity cfg (joinSep "\n" ss) rfl hAmms hcfg
    have h0 := occ_cowAmms_zero mempoolHeader.data (by decide) (by decide)
      (by decide) rfl (by decide) (by decide) (by decide) (by decide) (by decide)
      contracts.cowAmmHelper ss hB
    have hsolv := occ_solversSection_mempool engines
      (fun e he => ⟨(heng e he).2.2.1, (heng e he).2.2.2⟩)
    have hliq : occCount mempoolHeader.data ((liquidity.toConfig contracts)).data
        = 0 := by
      cases liquidity with
      | uniswapV2 =>
        rw [occ_liq_uniswap mempoolHeader.data (by decide) rfl contracts]
        decide
      | zeroEx p =>
        rw [occ_liq_zeroEx mempoolHeader.data (by decide) (by decide) rfl p contracts]
        decide
    show occStr mempoolHeader cfg = 1
    unfold occStr
    rw [hdecomp, h0, hliq,
      show occCount mempoolHeader.data (solversSection engines).data = 0 from hsolv]
    have l1 : occCount mempoolHeader.data cfgLit1.data = 0 := by decide
    have l2 : occCount mempoolHeader.data cfgLit2.data = 0 := by decide
    have l3 : occCount mempoolHeader.data cfgLit3.data = 0 := by decide
    have l4 : occCount mempoolHeader.data cfgLit4.data = 0 := by decide
    have l5 : occCount mempoolHeader.data cfgLit5.data = 0 := by decide
    have l6 : occCount mempoolHeader.data submissionSection.data = 1 := by decide
    rw [l1, l2, l3, l4, l5, l6]
  · exact config_contains_solvers contracts engines liquidity cfg _ hAmms hcfg
  · intro e he
    refine ⟨?_, solverBlock_contains_name e, solverBlock_contains_endpoint e,
      solverBlock_contains_account e, solverBlock_contains_slippage e⟩
    exact containsStr_trans
      (config_contains_solvers contracts engines liquidity cfg _ hAmms hcfg)
      (joinSep_contains (engines.map solverBlock) (solverBlock e)
        (List.mem_map_of_mem solverBlock he))
  · refine containsStr_trans
      (config_contains_submission contracts engines liquidity cfg _ hAmms hcfg) ?_
    exact ⟨("\n\n" : String).data, [], by decide⟩

/-- Witness for C7 at a concrete deployment: one engine, one CoW AMM helper
deployed at block 5, uniswap liquidity: the configuration builds, carries
exactly one solver block and exactly one mempool block. -/
theorem c7_driver_config_witness :
    startDriverConfig ⟨7, 8, 9, 10, [⟨11, some (.blockNumber 5)⟩]⟩
        [⟨"s1", "http://h", [1, 2]⟩] .uniswapV2
      = some ((startDriverConfig ⟨7, 8, 9, 10, [⟨11, some (.blockNumber 5)⟩]⟩
          [⟨"s1", "http://h", [1, 2]⟩] .uniswapV2).getD "")
    ∧ occStr solverHeader ((startDriverConfig ⟨7, 8, 9, 10,
        [⟨11, some (.blockNumber 5)⟩]⟩ [⟨"s1", "http://h", [1, 2]⟩]
          .uniswapV2).getD "") = 1
    ∧ occStr mempoolHeader ((startDriverConfig ⟨7, 8, 9, 10,
        [⟨11, some (.blockNumber 5)⟩]⟩ [⟨"s1", "http://h", [1, 2]⟩]
          .uniswapV2).getD "") = 1 := by
  refine ⟨rfl, ?_, ?_⟩
  · exact (c7_driver_config ⟨7, 8, 9, 10, [⟨11, some (.blockNumber 5)⟩]⟩
      [⟨"s1", "http://h", [1, 2]⟩] .uniswapV2 _ rfl (by decide)).1.trans rfl
  · exact (c7_driver_config ⟨7, 8, 9, 10, [⟨11, some (.blockNumber 5)⟩]⟩
      [⟨"s1", "http://h", [1, 2]⟩] .uniswapV2 _ rfl (by decide)).2.1

end Colocation

namespace Colocation

/-- Claim C10: `start_driver` panics whenever a CoW AMM helper contract's
deployment information is not a block number; when every helper has a
deployment block number, the generated configuration carries, per contract,
an index-start equal to that block number minus one — and the subtraction
itself underflows (panics) when the deployment block number is zero. -/
theorem c10_cow_amm_deployment (contracts : Contracts)
    (engines : List SolverEngine) (liquidity : LiquidityProvider) :
    ((∃ ct ∈ contracts.cowAmmHelper,
        ∀ b, ct.deploymentInformation ≠ some (.blockNumber b)) →
      startDriverConfig contracts engines liquidity = none)
    ∧ (∀ ct ∈ contracts.cowAmmHelper,
        ct.deploymentInformation = some (.blockNumber 0) →
        startDriverConfig contracts engines liquidity = none)
    ∧ ((∀ ct ∈ contracts.cowAmmHelper, ∃ b, 0 < b
          ∧ ct.deploymentInformation = some (.blockNumber b)) →
        ∃ cfg, startDriverConfig contracts engines liquidity = some cfg
          ∧ ∀ ct ∈ contracts.cowAmmHelper, ∀ b,
              ct.deploymentInformation = some (.blockNumber b) →
              containsStr cfg ("index-start = " ++ natDec (b - 1))) := by
  refine ⟨?_, ?_, ?_⟩
  · rintro ⟨ct, hmem, hni⟩
    have hnone : cowAmmBlock ct = none := by
      obtain ⟨addr, di⟩ := ct
      cases di with
      | none => rfl
      | some dinfo =>
        cases dinfo with
        | blockNumber b => exact absurd rfl (hni b)
        | transactionHash th => rfl
    unfold startDriverConfig cowAmmsSection
    rw [cowAmmBlocks_none contracts.cowAmmHelper ⟨ct, hmem, hnone⟩]
    rfl
  · intro ct hmem h0
    have hnone : cowAmmBlock ct = none := by
      obtain ⟨addr, di⟩ := ct
      have hdi : di = some (.blockNumber 0) := h0
      subst hdi
      rfl
    unfold startDriverConfig cowAmmsSection
    rw [cowAmmBlocks_none contracts.cowAmmHelper ⟨ct, hmem, hnone⟩]
    rfl
  · intro hall
    have hsome : ∀ c ∈ contracts.cowAmmHelper, ∃ s, cowAmmBlock c = some s := by
      intro c hc
      obtain ⟨b, hb, hinfo⟩ := hall c hc
      obtain ⟨addr, di⟩ := c
      have hdi : di = some (.blockNumber b) := hinfo
      subst hdi
      exact ⟨_, by
        rw [show cowAmmBlock ⟨addr, some (.blockNumber b)⟩
            = if b = 0 then none
              else some (cowLit1 ++ natDec (b - 1) ++ cowLit2 ++ h160Repr addr
                ++ cowLit3 ++ h160Repr addr ++ cowLit4) from rfl,
          if_neg (Nat.pos_iff_ne_zero.mp hb)]⟩
    obtain ⟨ss, hss⟩ := cowAmmBlocks_some contracts.cowAmmHelper hsome
    have hsec : cowAmmsSection contracts.cowAmmHelper
        = some (joinSep "\n" ss) := by
      unfold cowAmmsSection
      rw [hss]
      rfl
    have hcfg : startDriverConfig contracts engines liquidity
        = some (cfgLit1 ++ h160Repr contracts.gpSettlement ++ cfgLit2
          ++ h160Repr contracts.weth ++ cfgLit3 ++ joinSep "\n" ss ++ cfgLit4
          ++ solversSection engines ++ cfgLit5 ++ liquidity.toConfig contracts
          ++ submissionSection) := by
      unfold startDriverConfig
      rw [hsec]
      rfl
    refine ⟨_, hcfg, ?_⟩
    intro ct hmem b hinfo
    obtain ⟨s, hsmem, hblock⟩ :=
      cowAmmBlocks_mem_fwd contracts.cowAmmHelper ss hss ct hmem
    obtain ⟨addr, di⟩ := ct
    have hdi : di = some (.blockNumber b) := hinfo
    subst hdi
    have hbne : b ≠ 0 := by
      intro hzero
      subst hzero
      rw [show cowAmmBlock ⟨addr, some (.blockNumber 0)⟩ = none from rfl] at hblock
      cases hblock
    have hsform : s = cowLit1 ++ natDec (b - 1) ++ cowLit2 ++ h160Repr addr
        ++ cowLit3 ++ h160Repr addr ++ cowLit4 := by
      rw [show cowAmmBlock ⟨addr, some (.blockNumber b)⟩
          = if b = 0 then none
            else some (cowLit1 ++ natDec (b - 1) ++ cowLit2 ++ h160Repr addr
              ++ cowLit3 ++ h160Repr addr ++ cowLit4) from rfl,
        if_neg hbne] at hblock
      exact (Option.some.inj hblock).symm
    subst hsform
    refine containsStr_trans
      (containsStr_trans
        (config_contains_cowAmms contracts engines liquidity _ _ hsec hcfg)
        (joinSep_contains ss _ hsmem)) ?_
    refine ⟨("\n[[contracts.cow-amms]]\n" : String).data,
      (cowLit2 ++ h160Repr addr ++ cowLit3 ++ h160Repr addr ++ cowLit4).data, ?_⟩
    simp only [String.data_append, List.append_assoc]
    rfl

/-- Witness for C10: a helper contract whose deployment block is 0 makes the
configuration build panic. -/
theorem c10_cow_amm_deployment_witness :
    startDriverConfig ⟨1, 2, 3, 4, [⟨5, some (.blockNumber 0)⟩]⟩ []
        .uniswapV2 = none :=
  (c10_cow_amm_deployment ⟨1, 2, 3, 4, [⟨5, some (.blockNumber 0)⟩]⟩ []
      .uniswapV2).2.1
    ⟨5, some (.blockNumber 0)⟩ (List.mem_cons_self _ _) rfl

end Colocation
